import Mathlib

/-!
Verification of the core data pipeline of `app.py` (Data Peserta Generator):
header location (`find_and_read_data`), multi-value affiliation expansion
(`expand_instansi_rows`), affiliation resolution (`get_ref_instansi_for_value`),
missing-affiliation detection (`find_missing_instansi`) and categorical grouping
(`separate_data`).

The embedding works on an explicit tabular data model: a `DF` is a pandas
DataFrame reduced to its column labels plus row-major string cells.  Python
dictionaries become insertion-ordered association lists, pandas/Python
exceptions become `Except String`, and Python's string primitives (`strip`,
`split`, `upper`, `in`) are modelled on the underlying character lists.
-/

/-! ## Python string primitives -/

/-- Python `str.strip()`: drop leading and trailing whitespace characters. -/
def stripChars (l : List Char) : List Char :=
  ((l.dropWhile Char.isWhitespace).reverse.dropWhile Char.isWhitespace).reverse

/-- Python `str.strip()` on `String`. -/
def pyStrip (s : String) : String := ⟨stripChars s.data⟩

/-- Python `c in s` for a single character `c`. -/
def pyContains (s : String) (c : Char) : Bool := s.data.contains c

/-- Python `str.upper()` (the sources only use it on ASCII names). -/
def pyUpper (s : String) : String := ⟨s.data.map Char.toUpper⟩

/-- Python `s.split(sep)` for a one-character separator `sep`:
`"a,b".split(',') == ["a","b"]`, `",".split(',') == ["",""]`, `"".split(',') == [""]`. -/
def splitChar (sep : Char) : List Char → List (List Char)
  | [] => [[]]
  | c :: cs =>
    match splitChar sep cs with
    | [] => [[]]
    | h :: t => if c = sep then [] :: h :: t else (c :: h) :: t

/-- Python `x or default` for an optional string (`None` and `""` are falsy). -/
def pyOr (o : Option String) (d : String) : String :=
  match o with
  | some s => if s == "" then d else s
  | none => d

/-- A cell holding an optional code: Python `None` is rendered the way `str`
would, so that it stays a plain string cell of the data model. -/
def optCell (o : Option String) : String :=
  match o with
  | some s => s
  | none => "None"

/-- Strict lexicographic comparison of character lists by code point, the
order Python string comparison uses. -/
def chLt : List Char → List Char → Bool
  | [], [] => false
  | [], _ :: _ => true
  | _ :: _, [] => false
  | a :: as, b :: bs =>
    if a.toNat < b.toNat then true
    else if b.toNat < a.toNat then false
    else chLt as bs

/-- Comparison used to model Python `sorted` on strings (code-point order;
proved below to agree with the library order on `String`). -/
def strLe (a b : String) : Bool := !chLt b.data a.data

/-- Lexicographic comparison on string pairs, modelling how pandas `groupby`
orders composite group keys. -/
def pairLe (a b : String × String) : Bool :=
  chLt a.1.data b.1.data || (a.1 == b.1 && strLe a.2 b.2)

/-- Python `sorted` on strings: the ascending sorted permutation (computed by
a stable structural sort, as `sorted` is). -/
def pySorted (l : List String) : List String :=
  List.insertionSort (fun a b => strLe a b = true) l

/-- The sorted key order in which pandas `groupby` emits composite groups. -/
def pairSorted (l : List (String × String)) : List (String × String) :=
  List.insertionSort (fun a b => pairLe a b = true) l

/-! ## Data model: DataFrames and dictionaries -/

/-- A pandas DataFrame: column labels plus row-major cells.  All cells are
strings (the pipeline's cells are read as raw values and coerced with `str`). -/
structure DF where
  cols : List String
  rows : List (List String)
deriving DecidableEq

/-- Read the cell of row `r` at column position `i` (a ragged or short row
reads as empty, cf. spec: ragged cells are treated as empty). -/
def cell (r : List String) (i : Nat) : String := r.getD i ""

/-- `pd.DataFrame(rows)`: an empty row list yields an empty frame with no
columns at all. -/
def mkDF (cols : List String) (rows : List (List String)) : DF :=
  if rows.isEmpty then ⟨[], []⟩ else ⟨cols, rows⟩

/-- Python dict lookup `d[k]` as an insertion-ordered association list. -/
def dictFind? (d : List (String × String)) (k : String) : Option String :=
  (d.find? (fun p => p.1 == k)).map (·.2)

/-- Column assignment `df[c] = f(row)`: overwrite the column if it exists,
otherwise append it on the right. -/
def assignWith (df : DF) (c : String) (f : List String → String) : DF :=
  match List.findIdx? (fun x => x == c) df.cols with
  | some j => ⟨df.cols, df.rows.map (fun r => r.set j (f r))⟩
  | none => ⟨df.cols ++ [c], df.rows.map (fun r => r ++ [f r])⟩

/-- Column assignment with a constant value, `df[c] = v`. -/
def assignConst (df : DF) (c : String) (v : String) : DF :=
  assignWith df c (fun _ => v)

/-- `pd.concat(dfs, ignore_index=True)` for frames sharing one column list,
which is how the grouping engine uses it (every frame in a bucket carries the
schema produced by the same processing chain). -/
def concatDF (l : List DF) : DF :=
  match l with
  | [] => ⟨[], []⟩
  | d :: _ => ⟨d.cols, l.flatMap (·.rows)⟩

/-! ## `find_and_read_data` (app.py lines 15–30): the header locator -/

/-- The subset test of line 21: `set(headers).issubset(set(row))`. -/
def rowHasHeaders (headers : List String) (row : List String) : Bool :=
  headers.all (fun h => row.contains h)

/-- All column positions of label `h`, in left-to-right order (`n` is the
position of the first element of `l`).  `df[headers]` selects, for each header
label, every column carrying it. -/
def idxsOf (h : String) : List String → Nat → List Nat
  | [], _ => []
  | x :: xs, n => if x == h then n :: idxsOf h xs (n + 1) else idxsOf h xs (n + 1)

/-- The column positions selected by `df[headers]`. -/
def selectIdxs (labels : List String) (headers : List String) : List Nat :=
  headers.flatMap (fun h => idxsOf h labels 0)

/-- The `ValueError` message of line 26. -/
def headerErrMsg (headers : List String) (sheet_name : String) : String :=
  "Headers " ++ toString headers ++ " not found in sheet '" ++ sheet_name ++
    "' of the Excel file"

/-- `find_and_read_data` on an in-memory grid: locate the first row containing
all required headers, relabel, keep the rows strictly below it and project to
the header columns. -/
def find_and_read_data (grid : List (List String)) (headers : List String)
    (sheet_name : String) : Except String DF :=
  match List.findIdx? (rowHasHeaders headers) grid with
  | none => .error (headerErrMsg headers sheet_name)
  | some i =>
    let labels := grid.getD i []
    let idxs := selectIdxs labels headers
    .ok ⟨idxs.map (fun k => labels.getD k ""),
         (grid.drop (i + 1)).map (fun r => idxs.map (fun k => cell r k))⟩

/-! ## `expand_instansi_rows` (app.py lines 65–90): the multi-value expander -/

/-- Lines 74–79: find the first separator present (comma, then semicolon, then
pipe), split on it, strip each token and drop the empty ones.  When no
separator is present the accumulator `instansi_list` stays empty. -/
def splitTokens (v : String) : List String :=
  match [',', ';', '|'].find? (fun sep => pyContains v sep) with
  | some sep =>
    ((splitChar sep v.data).map (fun t => (⟨stripChars t⟩ : String))).filter
      (fun t => t != "")
  | none => []

/-- The loop body of lines 69–88 for one row: `row['INSTANSI']` lives at
column position `i`. -/
def expandRow (i : Nat) (row : List String) : List (List String) :=
  let v := pyStrip (cell row i)
  if pyContains v ',' || pyContains v ';' || pyContains v '|' then
    (splitTokens v).map (fun t => row.set i t)
  else
    [row]

/-- `expand_instansi_rows`.  Reading `row['INSTANSI']` raises `KeyError` when
the column is absent and at least one row is visited; the final
`pd.DataFrame(expanded_rows)` of an empty list has no columns. -/
def expand_instansi_rows (df : DF) : Except String DF :=
  match List.findIdx? (fun c => c == "INSTANSI") df.cols with
  | some i => .ok (mkDF df.cols (df.rows.flatMap (expandRow i)))
  | none =>
    if df.rows.isEmpty then .ok ⟨[], []⟩ else .error "KeyError: INSTANSI"

/-! ## `get_ref_instansi_for_value` (app.py lines 92–105): the resolver -/

/-- The reference-table scan of lines 99–102 (also lines 123–127 of
`find_missing_instansi`): first entry whose code equals the value or whose
name equals it case-insensitively. -/
def refLookup (ref_instansi_dict : List (String × String)) (v : String) :
    Option String :=
  (ref_instansi_dict.find? (fun p => p.2 == v || pyUpper p.1 == pyUpper v)).map
    (·.2)

/-- `get_ref_instansi_for_value`: manual mapping first, then the reference
scan, else `None`.  An empty dictionary is falsy in Python, and scanning an
empty dictionary finds nothing, so both guards collapse to the lookups. -/
def get_ref_instansi_for_value (instansi_value : String)
    (ref_instansi_dict manual_mapping : List (String × String)) :
    Option String :=
  match dictFind? manual_mapping instansi_value with
  | some code => some code
  | none => refLookup ref_instansi_dict instansi_value

/-! ## `find_missing_instansi` (app.py lines 107–131): the missing detector -/

/-- Lines 114–117: strip every `INSTANSI` cell in place, then drop rows whose
value is empty or the string `"nan"` (`notna` never drops a `str` cell). -/
def cleanInstansi (i : Nat) (rows : List (List String)) : List (List String) :=
  ((rows.map (fun r => r.set i (pyStrip (cell r i)))).filter
      (fun r => cell r i != "")).filter
    (fun r => cell r i != "nan")

/-- The per-dataframe step of the collection loop (lines 111–118): the
`INSTANSI` values contributed to `all_instansi`.  Accessing
`expanded_df['INSTANSI']` raises when the expanded frame lost its columns. -/
def collectStep (df : DF) : Except String (List String) :=
  if df.cols.contains "INSTANSI" then
    match expand_instansi_rows df with
    | .error e => .error e
    | .ok e =>
      match List.findIdx? (fun c => c == "INSTANSI") e.cols with
      | none => .error "KeyError: INSTANSI"
      | some i => .ok ((cleanInstansi i e.rows).map (fun r => cell r i))
  else .ok []

/-- The collection loop over all dataframes, concatenating contributions
(`all_instansi` is a set: duplicates are erased when it is consumed). -/
def collectInstansi (dfs : List DF) : Except String (List String) :=
  match dfs with
  | [] => .ok []
  | df :: rest =>
    match collectStep df with
    | .error e => .error e
    | .ok names =>
      match collectInstansi rest with
      | .error e => .error e
      | .ok more => .ok (names ++ more)

/-- The names a dataframe contributes when its collection step succeeds
(an erroring step contributes nothing; used to state the loop invariant). -/
def stepNames (df : DF) : List String :=
  match collectStep df with
  | .ok ns => ns
  | .error _ => []

/-- `find_missing_instansi`: the distinct collected values with no reference
match (lines 120–129), returned by `sorted` (line 131). -/
def find_missing_instansi (dataframes : List DF)
    (ref_instansi_dict : List (String × String)) : Except String (List String) :=
  match collectInstansi dataframes with
  | .error e => .error e
  | .ok names =>
    .ok (pySorted ((names.dedup).filter
        (fun v => (refLookup ref_instansi_dict v).isNone)))

/-! ## `separate_data` (app.py lines 133–187): the grouping engine -/

/-- `df.groupby('JENIS TES')` over column position `j`: pandas emits the
distinct keys in sorted order, each with the matching rows in original order. -/
def groupBy1 (j : Nat) (d : DF) : List (String × DF) :=
  let keys := pySorted ((d.rows.map (fun r => cell r j)).dedup)
  keys.map (fun k => (k, ⟨d.cols, d.rows.filter (fun r => cell r j == k)⟩))

/-- `df.groupby(['JENIS TES', 'INSTANSI'])` over column positions `j` and
`i`: distinct key pairs in sorted order, each with the matching rows. -/
def groupBy2 (j i : Nat) (d : DF) : List ((String × String) × DF) :=
  let keys := pairSorted ((d.rows.map (fun r => (cell r j, cell r i))).dedup)
  keys.map (fun k =>
    (k, ⟨d.cols, d.rows.filter (fun r => (cell r j, cell r i) == k)⟩))

/-- Lines 162–164 and 178–180: append a group to `separated_dfs[key]`,
creating the key on first sight. -/
def addToBuckets (b : List (String × List DF)) (k : String) (g : DF) :
    List (String × List DF) :=
  if b.any (fun p => p.1 == k) then
    b.map (fun p => if p.1 == k then (p.1, p.2 ++ [g]) else p)
  else b ++ [(k, [g])]

/-- One iteration of the bucket-filling loops. -/
def insertBucket (b : List (String × List DF)) (p : String × DF) :
    List (String × List DF) :=
  addToBuckets b p.1 p.2

/-- The `(key, group)` pairs one source dataframe contributes in affiliation
mode (lines 138–168), or the error its processing raises.  The `groupby` of
line 159 sits inside `try`/`except`, so a missing `JENIS TES` column only
skips this dataframe (empty contribution); everything before it is unguarded. -/
def sepStepInstansi (ref_instansi_dict manual_mapping : List (String × String))
    (df : DF) : Except String (List (String × DF) × DF) :=
  match expand_instansi_rows df with
  | .error e => .error e
  | .ok e =>
    match List.findIdx? (fun c => c == "INSTANSI") e.cols with
    | none => .error "KeyError: INSTANSI"
    | some i =>
      let cleaned : DF := ⟨e.cols, cleanInstansi i e.rows⟩
      if cleaned.rows.isEmpty then .ok ([], df)
      else
        let withRef := assignWith cleaned "REF_INSTANSI" (fun r =>
          optCell (get_ref_instansi_for_value (cell r i) ref_instansi_dict
            manual_mapping))
        match List.findIdx? (fun c => c == "JENIS TES") withRef.cols,
            List.findIdx? (fun c => c == "INSTANSI") withRef.cols with
        | some j, some i2 =>
          .ok ((groupBy2 j i2 withRef).map (fun kg =>
            (kg.1.2 ++ "_" ++ kg.1.1, kg.2)), df)
        | _, _ => .ok ([], df)

/-- The `(key, group)` pairs one source dataframe contributes in
category-only mode (lines 169–180).  The column assignments mutate the
caller's dataframe (returned as the second component), and the `groupby` of
line 175 is unguarded: a missing `JENIS TES` column aborts the whole call. -/
def sepStepJenis (selected_instansi_name ref_instansi_code : Option String)
    (df : DF) : Except String (List (String × DF) × DF) :=
  let named := assignConst df "INSTANSI" (pyOr selected_instansi_name "NO_INSTANSI")
  let coded := assignConst named "REF_INSTANSI" (optCell ref_instansi_code)
  match List.findIdx? (fun c => c == "JENIS TES") coded.cols with
  | none => .error "KeyError: JENIS TES"
  | some j =>
    .ok ((groupBy1 j coded).map (fun kg =>
      (pyOr selected_instansi_name "NO_INSTANSI" ++ "_" ++ kg.1, kg.2)), coded)

/-- The per-dataframe step of `separate_data`, dispatching on the mode. -/
def sepStep (has_instansi_column : Bool)
    (selected_instansi_name ref_instansi_code : Option String)
    (ref_instansi_dict manual_mapping : List (String × String)) (df : DF) :
    Except String (List (String × DF) × DF) :=
  if has_instansi_column then sepStepInstansi ref_instansi_dict manual_mapping df
  else sepStepJenis selected_instansi_name ref_instansi_code df

/-- The loop of lines 137–180: thread the bucket map through every
dataframe, recording each dataframe's final (possibly mutated) state. -/
def sepLoop (has_instansi_column : Bool)
    (selected_instansi_name ref_instansi_code : Option String)
    (ref_instansi_dict manual_mapping : List (String × String)) :
    List DF → List (String × List DF) →
    Except String (List (String × List DF) × List DF)
  | [], b => .ok (b, [])
  | df :: rest, b =>
    match sepStep has_instansi_column selected_instansi_name ref_instansi_code
        ref_instansi_dict manual_mapping df with
    | .error e => .error e
    | .ok (pairs, out) =>
      match sepLoop has_instansi_column selected_instansi_name ref_instansi_code
          ref_instansi_dict manual_mapping rest (pairs.foldl insertBucket b) with
      | .error e => .error e
      | .ok (bf, outs) => .ok (bf, out :: outs)

/-- `separate_data`: run the loop from an empty bucket map, then combine each
bucket's frames (lines 182–185).  The result pairs the final bucket map with
the final states of the input dataframes (capturing the in-place mutation of
category-only mode). -/
def separate_data (dataframes : List DF) (has_instansi_column : Bool)
    (selected_instansi_name ref_instansi_code : Option String)
    (ref_instansi_dict manual_mapping : List (String × String)) :
    Except String (List (String × DF) × List DF) :=
  match sepLoop has_instansi_column selected_instansi_name ref_instansi_code
      ref_instansi_dict manual_mapping dataframes [] with
  | .error e => .error e
  | .ok (b, outs) => .ok (b.map (fun p => (p.1, concatDF p.2)), outs)

/-! ## Spec-side notions used to state the claims -/

/-- A dataframe's rows read back as records: field-name/value pairs. -/
def records (d : DF) : List (List (String × String)) :=
  d.rows.map (fun r => d.cols.zip r)

/-- A bucket's records, read back as field-name/value pairs (`bucketRecords`
mirrors looking a key up in the returned dict and listing the rows as
records). -/
def bucketRecords (b : List (String × DF)) (k : String) :
    List (List (String × String)) :=
  match b.find? (fun p => p.1 == k) with
  | some p => records p.2
  | none => []

/-- The frames accumulated under key `k` in the bucket map. -/
def bucketList (b : List (String × List DF)) (k : String) : List DF :=
  match b.find? (fun p => p.1 == k) with
  | some p => p.2
  | none => []

/-- The `(key, group)` pairs one dataframe contributes to the grouping loop
(none when its step raises). -/
def stepPairs (has_instansi_column : Bool)
    (selected_instansi_name ref_instansi_code : Option String)
    (ref_instansi_dict manual_mapping : List (String × String)) (df : DF) :
    List (String × DF) :=
  match sepStep has_instansi_column selected_instansi_name ref_instansi_code
      ref_instansi_dict manual_mapping df with
  | .ok (pairs, _) => pairs
  | .error _ => []

/-- The final state of one dataframe after its grouping step (unchanged when
the step raises). -/
def stepOut (has_instansi_column : Bool)
    (selected_instansi_name ref_instansi_code : Option String)
    (ref_instansi_dict manual_mapping : List (String × String)) (df : DF) : DF :=
  match sepStep has_instansi_column selected_instansi_name ref_instansi_code
      ref_instansi_dict manual_mapping df with
  | .ok (_, out) => out
  | .error _ => df

/-- The column list after a column assignment: unchanged when the column
exists, else extended on the right. -/
def addColName (cols : List String) (cname : String) : List String :=
  match List.findIdx? (fun x => x == cname) cols with
  | some _ => cols
  | none => cols ++ [cname]

/-- The schema every group emitted by the grouping engine carries, as a
function of the mode and the common source schema. -/
def sepOutCols (has_instansi_column : Bool) (c : List String) : List String :=
  if has_instansi_column then addColName c "REF_INSTANSI"
  else addColName (addColName c "INSTANSI") "REF_INSTANSI"

/-- Two dataframes with the same schema and the same rows up to order. -/
def DFPerm (a b : DF) : Prop := a.cols = b.cols ∧ a.rows.Perm b.rows

/-- `l₂` is `l₁` with the record sets reordered and the records inside each
set reordered. -/
def reordered (l₁ l₂ : List DF) : Prop :=
  ∃ mid, l₁.Perm mid ∧ List.Forall₂ DFPerm mid l₂

/-- Spec-side reading of the header-locator contract: row `i` is the first
row whose set of cell values is a superset of the required field names. -/
def firstHeaderRow (grid : List (List String)) (headers : List String)
    (i : Nat) : Prop :=
  i < grid.length ∧ (∀ h ∈ headers, h ∈ grid.getD i []) ∧
    ∀ j, j < i → ¬(∀ h ∈ headers, h ∈ grid.getD j [])

/-! ## Helper lemmas -/

theorem length_le_length_flatMap {α β : Type _} (f : α → List β) (l : List α)
    (h : ∀ a ∈ l, 1 ≤ (f a).length) : l.length ≤ (l.flatMap f).length := by
  induction l with
  | nil => simp
  | cons a t ih =>
    simp only [List.flatMap_cons, List.length_append, List.length_cons]
    have h1 := h a (List.mem_cons_self a t)
    have h2 := ih (fun x hx => h x (List.mem_cons_of_mem a hx))
    omega

theorem cell_set_self (l : List String) (i : Nat) : l.set i (cell l i) = l := by
  induction l generalizing i with
  | nil => cases i <;> simp
  | cons a t ih =>
    cases i with
    | zero => simp [cell]
    | succ n => simpa [cell, List.getD] using ih n

theorem rows_mkDF (cols : List String) (rows : List (List String)) :
    (mkDF cols rows).rows = rows := by
  by_cases h : rows.isEmpty
  · simp [mkDF, h, List.isEmpty_iff.mp h]
  · simp [mkDF, h]

theorem expand_ok_of_col (df : DF) (i : Nat)
    (hi : List.findIdx? (fun c => c == "INSTANSI") df.cols = some i) :
    expand_instansi_rows df =
      Except.ok (mkDF df.cols (df.rows.flatMap (expandRow i))) := by
  unfold expand_instansi_rows
  rw [hi]

/-! ## Claims about the multi-value expander -/

/-- C1 (corrected): expansion never reduces the record count, provided every
record whose trimmed affiliation value contains a delimiter yields at least
one non-empty token.  (Without the proviso the claim fails: see the
counterexample, where a record whose value is a bare delimiter collapses to
zero records.) -/
theorem c1_expander_count_amended (df : DF) (i : Nat)
    (hi : List.findIdx? (fun c => c == "INSTANSI") df.cols = some i)
    (h : ∀ r ∈ df.rows,
      (pyContains (pyStrip (cell r i)) ',' || pyContains (pyStrip (cell r i)) ';' ||
        pyContains (pyStrip (cell r i)) '|') = true →
      splitTokens (pyStrip (cell r i)) ≠ []) :
    ∃ e, expand_instansi_rows df = Except.ok e ∧
      df.rows.length ≤ e.rows.length := by
  refine ⟨mkDF df.cols (df.rows.flatMap (expandRow i)), expand_ok_of_col df i hi, ?_⟩
  rw [rows_mkDF]
  apply length_le_length_flatMap
  intro r hr
  unfold expandRow
  by_cases hc : (pyContains (pyStrip (cell r i)) ',' || pyContains (pyStrip (cell r i)) ';' ||
      pyContains (pyStrip (cell r i)) '|') = true
  · simp only [hc, if_true, List.length_map]
    exact Nat.one_le_iff_ne_zero.mpr
      (fun h0 => h r hr hc (List.length_eq_zero.mp h0))
  · simp [hc]

/-- Witness for C1's amended theorem at the spec's own scenario 2 record. -/
theorem c1_expander_count_witness :
    ∃ e, expand_instansi_rows (DF.mk ["INSTANSI"] [["POLRI,KEMKES"]]) = Except.ok e ∧
      (DF.mk ["INSTANSI"] [["POLRI,KEMKES"]]).rows.length ≤ e.rows.length :=
  c1_expander_count_amended (DF.mk ["INSTANSI"] [["POLRI,KEMKES"]]) 0
    (by decide) (by decide)

/-- Counterexample to C1 as stated: the single record whose affiliation value
is a bare comma expands to zero records, so the output count drops below the
input count. -/
theorem c1_expander_count_counterexample :
    expand_instansi_rows (DF.mk ["INSTANSI"] [[","]]) = Except.ok (DF.mk [] []) ∧
    (DF.mk ["INSTANSI"] [[","]]).rows.length = 1 ∧ (DF.mk [] []).rows.length = 0 := by
  refine ⟨?_, rfl, rfl⟩
  rfl

/-- C6 (confirmed): a record whose trimmed affiliation value contains a
delimiter is split on the first delimiter type in the fixed precedence order
comma, semicolon, pipe; each token is trimmed, empty tokens are dropped, and
one record per non-empty token is emitted with the affiliation cell replaced;
a record with no delimiter is emitted unchanged. -/
theorem c6_expander_delimiters (df : DF) (i : Nat)
    (hi : List.findIdx? (fun c => c == "INSTANSI") df.cols = some i) :
    ∃ e, expand_instansi_rows df = Except.ok e ∧
      e.rows = df.rows.flatMap (fun r =>
        if pyContains (pyStrip (cell r i)) ',' then
          (((splitChar ',' (pyStrip (cell r i)).data).map
            (fun t => (⟨stripChars t⟩ : String))).filter (fun t => t != "")).map
              (fun t => r.set i t)
        else if pyContains (pyStrip (cell r i)) ';' then
          (((splitChar ';' (pyStrip (cell r i)).data).map
            (fun t => (⟨stripChars t⟩ : String))).filter (fun t => t != "")).map
              (fun t => r.set i t)
        else if pyContains (pyStrip (cell r i)) '|' then
          (((splitChar '|' (pyStrip (cell r i)).data).map
            (fun t => (⟨stripChars t⟩ : String))).filter (fun t => t != "")).map
              (fun t => r.set i t)
        else [r]) := by
  refine ⟨mkDF df.cols (df.rows.flatMap (expandRow i)), expand_ok_of_col df i hi, ?_⟩
  rw [rows_mkDF]
  refine congrArg (List.flatMap df.rows) (funext fun r => ?_)
  unfold expandRow splitTokens
  by_cases h₁ : pyContains (pyStrip (cell r i)) ','
  · simp [List.find?, h₁]
  · by_cases h₂ : pyContains (pyStrip (cell r i)) ';'
    · simp [List.find?, h₁, h₂]
    · by_cases h₃ : pyContains (pyStrip (cell r i)) '|'
      · simp [List.find?, h₁, h₂, h₃]
      · simp [List.find?, h₁, h₂, h₃]

/-- Witness for C6 at the spec's scenario 2 record. -/
theorem c6_expander_delimiters_witness :
    ∃ e, expand_instansi_rows (DF.mk ["NO", "INSTANSI"] [["1", "POLRI,KEMKES"], ["2", "X"]]) =
        Except.ok e ∧
      e.rows = (DF.mk ["NO", "INSTANSI"] [["1", "POLRI,KEMKES"], ["2", "X"]]).rows.flatMap
        (fun r =>
          if pyContains (pyStrip (cell r 1)) ',' then
            (((splitChar ',' (pyStrip (cell r 1)).data).map
              (fun t => (⟨stripChars t⟩ : String))).filter (fun t => t != "")).map
                (fun t => r.set 1 t)
          else if pyContains (pyStrip (cell r 1)) ';' then
            (((splitChar ';' (pyStrip (cell r 1)).data).map
              (fun t => (⟨stripChars t⟩ : String))).filter (fun t => t != "")).map
                (fun t => r.set 1 t)
          else if pyContains (pyStrip (cell r 1)) '|' then
            (((splitChar '|' (pyStrip (cell r 1)).data).map
              (fun t => (⟨stripChars t⟩ : String))).filter (fun t => t != "")).map
                (fun t => r.set 1 t)
          else [r]) :=
  c6_expander_delimiters (DF.mk ["NO", "INSTANSI"] [["1", "POLRI,KEMKES"], ["2", "X"]]) 1
    (by decide)

/-- C7 (confirmed): every record emitted by the expander is a copy of one
source record with at most the affiliation cell replaced, so every
non-affiliation field value is preserved. -/
theorem c7_expander_preserves_fields (df : DF) (i : Nat) (e : DF)
    (hi : List.findIdx? (fun c => c == "INSTANSI") df.cols = some i)
    (he : expand_instansi_rows df = Except.ok e) :
    ∀ r' ∈ e.rows, ∃ r ∈ df.rows, ∃ t, r' = r.set i t ∧
      ∀ j, j ≠ i → cell r' j = cell r j := by
  have hrows : e.rows = df.rows.flatMap (expandRow i) := by
    rw [expand_ok_of_col df i hi] at he
    cases he
    exact rows_mkDF _ _
  intro r' hr'
  rw [hrows] at hr'
  obtain ⟨r, hr, hmem⟩ := List.mem_flatMap.mp hr'
  unfold expandRow at hmem
  by_cases hc : (pyContains (pyStrip (cell r i)) ',' || pyContains (pyStrip (cell r i)) ';' ||
      pyContains (pyStrip (cell r i)) '|') = true
  · rw [if_pos hc] at hmem
    obtain ⟨t, _, rfl⟩ := List.mem_map.mp hmem
    refine ⟨r, hr, t, rfl, fun j hj => ?_⟩
    simp [cell, List.getD_eq_getElem?_getD, List.getElem?_set_ne (Ne.symm hj)]
  · rw [if_neg hc] at hmem
    simp only [List.mem_singleton] at hmem
    refine ⟨r, hr, cell r i, ?_, ?_⟩
    · rw [hmem, cell_set_self]
    · intro j _
      rw [hmem]

/-- Witness for C7 on a concrete expansion: the first record emitted from
the scenario 2 row is a copy of its source record away from position 1. -/
theorem c7_expander_preserves_fields_witness :
    ∃ r ∈ (DF.mk ["NO", "INSTANSI"] [["1", "POLRI,KEMKES"]]).rows, ∃ t,
      (["1", "POLRI"] : List String) = r.set 1 t ∧
      ∀ j, j ≠ 1 → cell ["1", "POLRI"] j = cell r j :=
  c7_expander_preserves_fields (DF.mk ["NO", "INSTANSI"] [["1", "POLRI,KEMKES"]]) 1
    (DF.mk ["NO", "INSTANSI"] [["1", "POLRI"], ["1", "KEMKES"]]) (by decide) (by rfl)
    ["1", "POLRI"] (by decide)

/-! ## Claims about the affiliation resolver -/

/-- C2 (confirmed): the resolver returns the manual-override code on an exact
raw-name hit; otherwise, when some reference entry's code equals the name or
some entry's canonical name equals it case-insensitively, it returns the code
of such a matching entry; otherwise it returns the unresolved marker `none`.
With reference table KEMKES maps-to 001 and no override, "kemkes" resolves to
"001". -/
theorem c2_resolver_precedence (v : String) (ref manual : List (String × String)) :
    (∀ c, dictFind? manual v = some c →
      get_ref_instansi_for_value v ref manual = some c) ∧
    (dictFind? manual v = none →
      ((∃ p ∈ ref, p.2 = v ∨ pyUpper p.1 = pyUpper v) →
        ∃ p ∈ ref, (p.2 = v ∨ pyUpper p.1 = pyUpper v) ∧
          get_ref_instansi_for_value v ref manual = some p.2) ∧
      ((∀ p ∈ ref, ¬(p.2 = v ∨ pyUpper p.1 = pyUpper v)) →
        get_ref_instansi_for_value v ref manual = none)) ∧
    get_ref_instansi_for_value "kemkes" [("KEMKES", "001")] [] = some "001" := by
  refine ⟨?_, ?_, by decide⟩
  · intro c hc
    simp [get_ref_instansi_for_value, hc]
  · intro hm
    constructor
    · rintro ⟨p, hp, hmatch⟩
      have hsome : (ref.find? (fun p => p.2 == v || pyUpper p.1 == pyUpper v)).isSome := by
        apply List.find?_isSome.mpr
        exact ⟨p, hp, by simpa using hmatch⟩
      obtain ⟨q, hq⟩ := Option.isSome_iff_exists.mp hsome
      refine ⟨q, List.mem_of_find?_eq_some hq, ?_, ?_⟩
      · simpa using List.find?_some hq
      · simp [get_ref_instansi_for_value, refLookup, hm, hq]
    · intro hnone
      have hfind : ref.find? (fun p => p.2 == v || pyUpper p.1 == pyUpper v) = none := by
        apply List.find?_eq_none.mpr
        intro p hp
        simpa using hnone p hp
      simp [get_ref_instansi_for_value, refLookup, hm, hfind]

/-- Witness for C2: the case-insensitive reference match of scenario 3,
exercised through the no-override branch of the theorem. -/
theorem c2_resolver_precedence_witness :
    ∃ p ∈ [("KEMKES", "001")], (p.2 = "kemkes" ∨ pyUpper p.1 = pyUpper "kemkes") ∧
      get_ref_instansi_for_value "kemkes" [("KEMKES", "001")] [] = some p.2 :=
  ((c2_resolver_precedence "kemkes" [("KEMKES", "001")] []).2.1 (by decide)).1
    ⟨("KEMKES", "001"), by decide, by decide⟩

/-- C8 (corrected): resolving a code `c` that appears as a reference code
returns `c` itself, provided every reference entry whose canonical name
equals `c` case-insensitively also carries code `c`.  Without the proviso an
earlier entry whose name collides with `c` shadows the code==name fallback
(see the counterexample). -/
theorem c8_resolve_code_idempotent_amended (ref : List (String × String)) (c : String)
    (hcode : ∃ p ∈ ref, p.2 = c)
    (hname : ∀ p ∈ ref, pyUpper p.1 = pyUpper c → p.2 = c) :
    get_ref_instansi_for_value c ref [] = some c := by
  have hsome : (ref.find? (fun p => p.2 == c || pyUpper p.1 == pyUpper c)).isSome := by
    apply List.find?_isSome.mpr
    obtain ⟨p, hp, hpc⟩ := hcode
    exact ⟨p, hp, by simp [hpc]⟩
  obtain ⟨q, hq⟩ := Option.isSome_iff_exists.mp hsome
  have hqm : q.2 = c ∨ pyUpper q.1 = pyUpper c := by
    simpa using List.find?_some hq
  have hqc : q.2 = c := by
    rcases hqm with h | h
    · exact h
    · exact hname q (List.mem_of_find?_eq_some hq) h
  simp [get_ref_instansi_for_value, refLookup, dictFind?, hq, hqc]

/-- Witness for C8's amended theorem: resolving the already-resolved code
"001" against the reference table KEMKES maps-to 001. -/
theorem c8_resolve_code_idempotent_witness :
    get_ref_instansi_for_value "001" [("KEMKES", "001")] [] = some "001" :=
  c8_resolve_code_idempotent_amended [("KEMKES", "001")] "001"
    ⟨("KEMKES", "001"), by decide, by decide⟩ (by decide)

/-- Counterexample to C8 as stated: "ABC" appears as a reference code (of the
entry Q maps-to ABC), yet resolving "ABC" returns "X", because the earlier
entry ABC maps-to X matches by name first. -/
theorem c8_resolve_code_idempotent_counterexample :
    ("ABC" ∈ [("ABC", "X"), ("Q", "ABC")].map Prod.snd) ∧
    get_ref_instansi_for_value "ABC" [("ABC", "X"), ("Q", "ABC")] [] = some "X" ∧
    (some "X" : Option String) ≠ some "ABC" := by
  refine ⟨by decide, by decide, by decide⟩

/-! ## Claims about the header locator -/

theorem length_idxsOf (h : String) (l : List String) (n : Nat) :
    (idxsOf h l n).length = l.count h := by
  induction l generalizing n with
  | nil => simp [idxsOf]
  | cons x xs ih =>
    by_cases hx : x == h
    · simp [idxsOf, hx, List.count_cons, ih]
    · simp [idxsOf, hx, List.count_cons, ih]

theorem getD_of_mem_idxsOf (h : String) (l : List String) (n k : Nat)
    (hk : k ∈ idxsOf h l n) : n ≤ k ∧ l.getD (k - n) "" = h := by
  induction l generalizing n with
  | nil => simp [idxsOf] at hk
  | cons x xs ih =>
    unfold idxsOf at hk
    by_cases hx : x == h
    · rw [if_pos hx] at hk
      rcases List.mem_cons.mp hk with rfl | hk2
      · simpa using (beq_iff_eq.mp hx)
      · obtain ⟨hle, hget⟩ := ih (n + 1) hk2
        refine ⟨by omega, ?_⟩
        have : k - n = (k - (n + 1)) + 1 := by omega
        rw [this, List.getD_cons_succ]
        exact hget
    · rw [if_neg hx] at hk
      obtain ⟨hle, hget⟩ := ih (n + 1) hk
      refine ⟨by omega, ?_⟩
      have : k - n = (k - (n + 1)) + 1 := by omega
      rw [this, List.getD_cons_succ]
      exact hget

theorem map_getD_idxsOf_eq (labels : List String) (h : String)
    (hc : labels.count h = 1) :
    (idxsOf h labels 0).map (fun k => labels.getD k "") = [h] := by
  have hl : (idxsOf h labels 0).length = 1 := by rw [length_idxsOf]; exact hc
  obtain ⟨k, hk⟩ := List.length_eq_one.mp hl
  rw [hk]
  have hmem : k ∈ idxsOf h labels 0 := by rw [hk]; simp
  have := (getD_of_mem_idxsOf h labels 0 k hmem).2
  simpa using this

theorem flatMap_singleton_id {α : Type _} (l : List α) (f : α → List α)
    (h : ∀ x ∈ l, f x = [x]) : l.flatMap f = l := by
  induction l with
  | nil => simp
  | cons a t ih =>
    rw [List.flatMap_cons, h a (List.mem_cons_self a t),
      ih (fun x hx => h x (List.mem_cons_of_mem a hx))]
    rfl

theorem length_flatMap_singleton {α β : Type _} (l : List α) (f : α → List β)
    (h : ∀ x ∈ l, (f x).length = 1) : (l.flatMap f).length = l.length := by
  induction l with
  | nil => simp
  | cons a t ih =>
    rw [List.flatMap_cons, List.length_append, h a (List.mem_cons_self a t),
      ih (fun x hx => h x (List.mem_cons_of_mem a hx))]
    simp [Nat.add_comm]

theorem rowHasHeaders_iff (headers row : List String) :
    rowHasHeaders headers row = true ↔ ∀ h ∈ headers, h ∈ row := by
  simp [rowHasHeaders]

/-- C4 (confirmed): the header locator selects the first row whose set of cell
values is a superset of the required fields; the result is the rows strictly
below it projected to the required field columns in the order of the required
field list (exactly those columns when each required label occurs once in the
header row); and it fails, with an error naming the required fields and the
sheet, exactly when no row passes the subset test. -/
theorem c4_header_locator (grid : List (List String)) (headers : List String)
    (sheet : String) :
    (∀ i, firstHeaderRow grid headers i →
      find_and_read_data grid headers sheet =
        Except.ok ⟨(selectIdxs (grid.getD i []) headers).map
            (fun k => (grid.getD i []).getD k ""),
          (grid.drop (i + 1)).map
            (fun r => (selectIdxs (grid.getD i []) headers).map (fun k => cell r k))⟩) ∧
    (∀ i, firstHeaderRow grid headers i →
      (∀ h ∈ headers, (grid.getD i []).count h = 1) →
      ∃ d, find_and_read_data grid headers sheet = Except.ok d ∧
        d.cols = headers ∧ d.rows.length = grid.length - (i + 1) ∧
        ∀ r ∈ d.rows, r.length = headers.length) ∧
    ((∃ e, find_and_read_data grid headers sheet = Except.error e) ↔
      ∀ row ∈ grid, ¬(∀ h ∈ headers, h ∈ row)) ∧
    (∀ e, find_and_read_data grid headers sheet = Except.error e →
      e = headerErrMsg headers sheet) := by
  have key : ∀ i, firstHeaderRow grid headers i →
      List.findIdx? (rowHasHeaders headers) grid = some i := by
    rintro i ⟨hlen, hmem, hfirst⟩
    rw [List.findIdx?_eq_some_iff_getElem]
    refine ⟨hlen, ?_, ?_⟩
    · rw [rowHasHeaders_iff, ← List.getD_eq_getElem grid [] hlen]
      exact hmem
    · intro j hj
      have hjl : j < grid.length := Nat.lt_trans hj hlen
      rw [rowHasHeaders_iff, ← List.getD_eq_getElem grid [] hjl]
      exact hfirst j hj
  have okbody : ∀ i, List.findIdx? (rowHasHeaders headers) grid = some i →
      find_and_read_data grid headers sheet =
        Except.ok ⟨(selectIdxs (grid.getD i []) headers).map
            (fun k => (grid.getD i []).getD k ""),
          (grid.drop (i + 1)).map
            (fun r => (selectIdxs (grid.getD i []) headers).map (fun k => cell r k))⟩ := by
    intro i hidx
    unfold find_and_read_data
    rw [hidx]
  refine ⟨fun i hi => okbody i (key i hi), ?_, ?_, ?_⟩
  · intro i hi hcount
    refine ⟨_, okbody i (key i hi), ?_, ?_, ?_⟩
    · show (selectIdxs (grid.getD i []) headers).map
        (fun k => (grid.getD i []).getD k "") = headers
      unfold selectIdxs
      rw [List.map_flatMap]
      exact flatMap_singleton_id headers _
        (fun h hh => map_getD_idxsOf_eq (grid.getD i []) h (hcount h hh))
    · simp
    · intro r hr
      simp only [List.mem_map] at hr
      obtain ⟨r0, _, rfl⟩ := hr
      rw [List.length_map]
      show (selectIdxs (grid.getD i []) headers).length = headers.length
      unfold selectIdxs
      exact length_flatMap_singleton headers _
        (fun h hh => by rw [length_idxsOf]; exact hcount h hh)
  · constructor
    · rintro ⟨e, he⟩ row hrow hall
      cases hidx : List.findIdx? (rowHasHeaders headers) grid with
      | none =>
        have hfalse := List.findIdx?_eq_none_iff.mp hidx row hrow
        have htrue := (rowHasHeaders_iff headers row).mpr hall
        rw [hfalse] at htrue
        simp at htrue
      | some i =>
        rw [okbody i hidx] at he
        cases he
    · intro hno
      have hidx : List.findIdx? (rowHasHeaders headers) grid = none := by
        rw [List.findIdx?_eq_none_iff]
        intro row hrow
        have := hno row hrow
        rw [← rowHasHeaders_iff] at this
        simpa using this
      refine ⟨headerErrMsg headers sheet, ?_⟩
      unfold find_and_read_data
      rw [hidx]
  · intro e he
    cases hidx : List.findIdx? (rowHasHeaders headers) grid with
    | none =>
      unfold find_and_read_data at he
      rw [hidx] at he
      cases he
      rfl
    | some i =>
      rw [okbody i hidx] at he
      cases he

/-- Witness for C4: a grid with junk above a header row at index 3 carrying
the four required fields plus an extra column, exercising the first-match and
projection parts of the theorem. -/
theorem c4_header_locator_witness :
    ∃ d, find_and_read_data
        [["a"], ["b"], ["c"],
         ["NO_PESERTA", "NAMA", "JENIS TES", "LOKASI UJIAN", "EXTRA"],
         ["1", "x", "CPNS", "JKT", "z"], ["2", "y", "PPPK", "BDG", "w"]]
        ["NO_PESERTA", "NAMA", "JENIS TES", "LOKASI UJIAN"] "Sheet1" =
        Except.ok d ∧
      d.cols = ["NO_PESERTA", "NAMA", "JENIS TES", "LOKASI UJIAN"] ∧
      d.rows.length = 6 - (3 + 1) ∧
      ∀ r ∈ d.rows, r.length = (["NO_PESERTA", "NAMA", "JENIS TES", "LOKASI UJIAN"] : List String).length :=
  (c4_header_locator
    [["a"], ["b"], ["c"],
     ["NO_PESERTA", "NAMA", "JENIS TES", "LOKASI UJIAN", "EXTRA"],
     ["1", "x", "CPNS", "JKT", "z"], ["2", "y", "PPPK", "BDG", "w"]]
    ["NO_PESERTA", "NAMA", "JENIS TES", "LOKASI UJIAN"] "Sheet1").2.1 3
    (by constructor
        · decide
        · constructor
          · decide
          · decide)
    (by decide)

/-! ## Claims about the missing-affiliation detector -/

theorem perm_flatMap {α β : Type _} (f : α → List β) {l₁ l₂ : List α}
    (h : l₁.Perm l₂) : (l₁.flatMap f).Perm (l₂.flatMap f) := by
  rw [List.flatMap_def, List.flatMap_def]
  exact (h.map f).flatten

theorem flatMap_perm_of_forall₂ {α β : Type _} (f : α → List β) {l₁ l₂ : List α}
    (h : List.Forall₂ (fun a b => (f a).Perm (f b)) l₁ l₂) :
    (l₁.flatMap f).Perm (l₂.flatMap f) := by
  induction h with
  | nil => rfl
  | cons hab _ ih => exact hab.append ih

theorem char_eq_of_toNat_eq {a b : Char} (h : a.toNat = b.toNat) : a = b :=
  Char.eq_of_val_eq (UInt32.eq_of_toBitVec_eq (BitVec.eq_of_toNat_eq h))

theorem char_lt_of_toNat_lt {a b : Char} (h : a.toNat < b.toNat) : a < b := by
  rw [Char.lt_def]
  exact h

theorem toNat_lt_of_char_lt {a b : Char} (h : a < b) : a.toNat < b.toNat := by
  rw [Char.lt_def] at h
  exact h

theorem chLt_iff_lex : ∀ l₁ l₂ : List Char,
    chLt l₁ l₂ = true ↔ List.Lex (· < ·) l₁ l₂ := by
  intro l₁
  induction l₁ with
  | nil =>
    intro l₂
    cases l₂ with
    | nil =>
      simp only [chLt, Bool.false_eq_true, false_iff]
      intro h
      cases h
    | cons b bs => simp [chLt, List.Lex.nil]
  | cons a as ih =>
    intro l₂
    cases l₂ with
    | nil =>
      simp only [chLt, Bool.false_eq_true, false_iff]
      intro h
      cases h
    | cons b bs =>
      show (if a.toNat < b.toNat then true
        else if b.toNat < a.toNat then false else chLt as bs) = true ↔ _
      by_cases h1 : a.toNat < b.toNat
      · rw [if_pos h1]
        exact ⟨fun _ => List.Lex.rel (char_lt_of_toNat_lt h1), fun _ => rfl⟩
      · by_cases h2 : b.toNat < a.toNat
        · rw [if_neg h1, if_pos h2]
          constructor
          · intro h
            cases h
          · intro hlex
            cases hlex with
            | rel hr => exact absurd (toNat_lt_of_char_lt hr) h1
            | cons htail => exact absurd h2 (lt_irrefl _)
        · rw [if_neg h1, if_neg h2]
          have hab : a = b := char_eq_of_toNat_eq (by omega)
          subst hab
          constructor
          · intro h
            exact List.Lex.cons ((ih bs).mp h)
          · intro hlex
            cases hlex with
            | rel hr => exact absurd (toNat_lt_of_char_lt hr) h1
            | cons htail => exact (ih bs).mpr htail

theorem chLt_iff_lt (a b : String) : chLt a.data b.data = true ↔ a < b :=
  (chLt_iff_lex a.data b.data).trans
    (String.lt_iff_toList_lt.trans Iff.rfl).symm

theorem strLe_iff (a b : String) : strLe a b = true ↔ a ≤ b := by
  have h1 : strLe a b = true ↔ ¬(chLt b.data a.data = true) := by
    simp [strLe]
  rw [h1, chLt_iff_lt b a, not_lt]

theorem strLe_trans : ∀ a b c : String, strLe a b = true → strLe b c = true →
    strLe a c = true := fun a b c hab hbc =>
  (strLe_iff a c).mpr (le_trans ((strLe_iff a b).mp hab) ((strLe_iff b c).mp hbc))

theorem strLe_total : ∀ a b : String, (strLe a b || strLe b a) = true := by
  intro a b
  rcases le_total a b with h | h
  · simp [(strLe_iff a b).mpr h]
  · simp [(strLe_iff b a).mpr h]

theorem strLe_isTotal : IsTotal String (fun a b => strLe a b = true) :=
  ⟨fun a b => by simpa using strLe_total a b⟩

theorem strLe_isTrans : IsTrans String (fun a b => strLe a b = true) :=
  ⟨strLe_trans⟩

theorem sorted_pySorted (l : List String) : List.Sorted (· ≤ ·) (pySorted l) :=
  (@List.sorted_insertionSort String (fun a b => strLe a b = true)
    inferInstance strLe_isTotal strLe_isTrans l).imp (fun h => (strLe_iff _ _).mp h)

theorem perm_pySorted (l : List String) : (pySorted l).Perm l :=
  List.perm_insertionSort _ l

theorem mem_pySorted {l : List String} {v : String} : v ∈ pySorted l ↔ v ∈ l :=
  List.mem_insertionSort _

theorem pySorted_eq_of_perm {l₁ l₂ : List String} (h : l₁.Perm l₂) :
    pySorted l₁ = pySorted l₂ :=
  List.eq_of_perm_of_sorted
    (((perm_pySorted l₁).trans h).trans (perm_pySorted l₂).symm)
    (sorted_pySorted l₁) (sorted_pySorted l₂)

theorem cleanInstansi_perm (i : Nat) {r₁ r₂ : List (List String)}
    (h : r₁.Perm r₂) : (cleanInstansi i r₁).Perm (cleanInstansi i r₂) :=
  (((h.map _).filter _).filter _)

theorem contains_findIdx? (cs : List String) (s : String)
    (hc : cs.contains s = true) :
    ∃ i, List.findIdx? (fun c => c == s) cs = some i := by
  rw [← Option.isSome_iff_exists, List.findIdx?_isSome]
  simp only [List.any_eq_true]
  exact ⟨s, by simpa using hc, by simp⟩

theorem collectStep_eq (df : DF) (i : Nat)
    (hi : List.findIdx? (fun c => c == "INSTANSI") df.cols = some i)
    (hc : df.cols.contains "INSTANSI" = true) :
    collectStep df =
      if (df.rows.flatMap (expandRow i)).isEmpty then
        Except.error "KeyError: INSTANSI"
      else
        Except.ok ((cleanInstansi i (df.rows.flatMap (expandRow i))).map
          (fun r => cell r i)) := by
  unfold collectStep
  rw [if_pos hc, expand_ok_of_col df i hi]
  by_cases he : (df.rows.flatMap (expandRow i)).isEmpty
  · simp only [mkDF, he, if_pos, if_true]
    simp [List.findIdx?_nil]
  · simp only [mkDF, he, if_false, Bool.false_eq_true, ite_false]
    rw [hi]

theorem collectStep_perm {a b : DF} (hab : DFPerm a b) :
    ((∃ ns, collectStep a = .ok ns) → ∃ ms, collectStep b = .ok ms) ∧
    (stepNames a).Perm (stepNames b) := by
  obtain ⟨hcols, hrows⟩ := hab
  by_cases hc : a.cols.contains "INSTANSI" = true
  · obtain ⟨i, hi⟩ := contains_findIdx? a.cols "INSTANSI" hc
    have hi' : List.findIdx? (fun c => c == "INSTANSI") b.cols = some i := by
      rw [← hcols]; exact hi
    have hc' : b.cols.contains "INSTANSI" = true := by rw [← hcols]; exact hc
    have ha := collectStep_eq a i hi hc
    have hb := collectStep_eq b i hi' hc'
    have hperm : (a.rows.flatMap (expandRow i)).Perm (b.rows.flatMap (expandRow i)) :=
      perm_flatMap _ hrows
    by_cases he : (a.rows.flatMap (expandRow i)).isEmpty
    · have he' : (b.rows.flatMap (expandRow i)).isEmpty := by
        rw [List.isEmpty_iff] at he ⊢
        rw [he] at hperm
        exact hperm.symm.eq_nil
      rw [if_pos he] at ha
      rw [if_pos he'] at hb
      constructor
      · rintro ⟨ns, hns⟩
        rw [ha] at hns
        cases hns
      · simp [stepNames, ha, hb]
    · have he' : ¬(b.rows.flatMap (expandRow i)).isEmpty := by
        intro hb'
        rw [List.isEmpty_iff] at hb' he
        rw [hb'] at hperm
        exact he hperm.eq_nil
      rw [if_neg he] at ha
      rw [if_neg he'] at hb
      constructor
      · intro _
        exact ⟨_, hb⟩
      · simp only [stepNames, ha, hb]
        exact (cleanInstansi_perm i hperm).map _
  · have hc' : ¬b.cols.contains "INSTANSI" = true := by rw [← hcols]; exact hc
    have ha : collectStep a = .ok [] := by unfold collectStep; rw [if_neg hc]
    have hb : collectStep b = .ok [] := by unfold collectStep; rw [if_neg hc']
    exact ⟨fun _ => ⟨[], hb⟩, by simp [stepNames, ha, hb]⟩

theorem collectInstansi_ok_iff (dfs : List DF) (names : List String) :
    collectInstansi dfs = .ok names ↔
      (∀ df ∈ dfs, ∃ ns, collectStep df = .ok ns) ∧
        names = dfs.flatMap stepNames := by
  induction dfs generalizing names with
  | nil => simp [collectInstansi, eq_comm]
  | cons df rest ih =>
    unfold collectInstansi
    constructor
    · intro h
      cases hstep : collectStep df with
      | error e => rw [hstep] at h; cases h
      | ok ns =>
        rw [hstep] at h
        cases hrest : collectInstansi rest with
        | error e => rw [hrest] at h; cases h
        | ok more =>
          rw [hrest] at h
          cases h
          obtain ⟨hall, hn⟩ := (ih more).mp hrest
          refine ⟨?_, ?_⟩
          · intro d hd
            rcases List.mem_cons.mp hd with rfl | hd2
            · exact ⟨ns, hstep⟩
            · exact hall d hd2
          · rw [List.flatMap_cons, ← hn, stepNames, hstep]
    · rintro ⟨hall, rfl⟩
      obtain ⟨ns, hstep⟩ := hall df (List.mem_cons_self df rest)
      rw [hstep]
      have hrest : collectInstansi rest = .ok (rest.flatMap stepNames) :=
        (ih _).mpr ⟨fun d hd => hall d (List.mem_cons_of_mem df hd), rfl⟩
      rw [hrest, List.flatMap_cons, stepNames, hstep]

theorem collect_transfer {mid dfs₂ : List DF}
    (h : List.Forall₂ DFPerm mid dfs₂)
    (hok : ∀ df ∈ mid, ∃ ns, collectStep df = .ok ns) :
    (∀ df ∈ dfs₂, ∃ ns, collectStep df = .ok ns) ∧
      (mid.flatMap stepNames).Perm (dfs₂.flatMap stepNames) := by
  induction h with
  | nil => exact ⟨by simp, List.Perm.refl _⟩
  | @cons a b l₁ l₂ hab htail ih =>
    obtain ⟨hok2, hperm⟩ := ih (fun d hd => hok d (List.mem_cons_of_mem a hd))
    obtain ⟨hstep, hnames⟩ := collectStep_perm hab
    refine ⟨?_, hnames.append hperm⟩
    intro d hd
    rcases List.mem_cons.mp hd with rfl | hd2
    · exact hstep (hok a (List.mem_cons_self a l₁))
    · exact hok2 d hd2

/-- C3 (confirmed): the missing-affiliation detector returns the distinct
unresolvable names in ascending lexical order without duplicates; the result
is invariant under reordering the record sets and the records within them;
membership is decided by the reference-table side of resolution alone (the
function consults no manual-override table). -/
theorem c3_find_missing_sorted_distinct (ref : List (String × String))
    (dfs₁ dfs₂ : List DF) (out : List String)
    (h₁ : find_missing_instansi dfs₁ ref = .ok out)
    (hre : reordered dfs₁ dfs₂) :
    List.Sorted (· ≤ ·) out ∧ out.Nodup ∧
    find_missing_instansi dfs₂ ref = .ok out ∧
    (∀ v, v ∈ out ↔ (∃ names, collectInstansi dfs₁ = .ok names ∧ v ∈ names) ∧
      refLookup ref v = none) := by
  obtain ⟨names₁, hcol, hout⟩ :
      ∃ names₁, collectInstansi dfs₁ = .ok names₁ ∧
        out = pySorted ((names₁.dedup).filter
          (fun v => (refLookup ref v).isNone)) := by
    unfold find_missing_instansi at h₁
    cases hcol : collectInstansi dfs₁ with
    | error e => rw [hcol] at h₁; cases h₁
    | ok names₁ =>
      rw [hcol] at h₁
      cases h₁
      exact ⟨names₁, rfl, rfl⟩
  obtain ⟨mid, hperm, hf₂⟩ := hre
  obtain ⟨hall₁, hnames₁⟩ := (collectInstansi_ok_iff dfs₁ names₁).mp hcol
  have hallmid : ∀ df ∈ mid, ∃ ns, collectStep df = .ok ns := by
    intro df hdf
    exact hall₁ df (hperm.mem_iff.mpr hdf)
  obtain ⟨hall₂, hperm₂⟩ := collect_transfer hf₂ hallmid
  have hcol₂ : collectInstansi dfs₂ = .ok (dfs₂.flatMap stepNames) :=
    (collectInstansi_ok_iff dfs₂ _).mpr ⟨hall₂, rfl⟩
  have hnperm : names₁.Perm (dfs₂.flatMap stepNames) := by
    rw [hnames₁]
    exact (perm_flatMap stepNames hperm).trans hperm₂
  refine ⟨?_, ?_, ?_, ?_⟩
  · rw [hout]
    exact sorted_pySorted _
  · rw [hout]
    exact (perm_pySorted _).symm.nodup
      ((List.nodup_dedup names₁).filter _)
  · unfold find_missing_instansi
    rw [hcol₂, hout]
    exact congrArg Except.ok
      (pySorted_eq_of_perm ((hnperm.dedup.filter _)).symm)
  · intro v
    rw [hout, mem_pySorted, List.mem_filter, List.mem_dedup,
      Option.isNone_iff_eq_none]
    constructor
    · rintro ⟨hv, hn⟩
      exact ⟨⟨names₁, hcol, hv⟩, hn⟩
    · rintro ⟨⟨names, hnames, hv⟩, hn⟩
      rw [hcol] at hnames
      cases hnames
      exact ⟨hv, hn⟩

/-- Witness for C3 on concrete data: two record sets swapped and internally
reordered still yield the sorted duplicate-free missing list. -/
theorem c3_find_missing_sorted_distinct_witness :
    List.Sorted (· ≤ ·) ["BKN", "BPOM"] ∧ ("BKN" :: ["BPOM"]).Nodup ∧
    find_missing_instansi
        [DF.mk ["INSTANSI"] [["kemkes"], ["BPOM"]],
         DF.mk ["INSTANSI"] [["BKN"], ["BPOM"]]] [("KEMKES", "001")] =
      Except.ok ["BKN", "BPOM"] ∧
    (∀ v, v ∈ ["BKN", "BPOM"] ↔
      (∃ names, collectInstansi
          [DF.mk ["INSTANSI"] [["BPOM"], ["BKN"]],
           DF.mk ["INSTANSI"] [["BPOM"], ["kemkes"]]] = .ok names ∧ v ∈ names) ∧
      refLookup [("KEMKES", "001")] v = none) :=
  c3_find_missing_sorted_distinct [("KEMKES", "001")]
    [DF.mk ["INSTANSI"] [["BPOM"], ["BKN"]],
     DF.mk ["INSTANSI"] [["BPOM"], ["kemkes"]]]
    [DF.mk ["INSTANSI"] [["kemkes"], ["BPOM"]],
     DF.mk ["INSTANSI"] [["BKN"], ["BPOM"]]]
    ["BKN", "BPOM"] (by rfl)
    ⟨[DF.mk ["INSTANSI"] [["BPOM"], ["kemkes"]],
      DF.mk ["INSTANSI"] [["BPOM"], ["BKN"]]],
     List.Perm.swap _ _ _,
     List.Forall₂.cons ⟨rfl, List.Perm.swap _ _ _⟩
       (List.Forall₂.cons ⟨rfl, List.Perm.swap _ _ _⟩ List.Forall₂.nil)⟩

/-! ## The grouping engine: bucket-map infrastructure -/

theorem find?_map_of_fst_pres {β γ : Type _} (f : String × β → String × γ)
    (hf : ∀ p, (f p).1 = p.1) (b : List (String × β)) (k : String) :
    (b.map f).find? (fun p => p.1 == k) = (b.find? (fun p => p.1 == k)).map f := by
  induction b with
  | nil => rfl
  | cons p t ih =>
    simp only [List.map_cons, List.find?]
    rw [hf p]
    cases hpk : (p.1 == k)
    · simpa using ih
    · simp

theorem bucketList_addToBuckets (b : List (String × List DF)) (k' : String)
    (g : DF) (k : String) :
    bucketList (addToBuckets b k' g) k =
      bucketList b k ++ (if k = k' then [g] else []) := by
  unfold addToBuckets
  by_cases hmem : b.any (fun p => p.1 == k') = true
  · rw [if_pos hmem]
    unfold bucketList
    rw [find?_map_of_fst_pres (fun p => if p.1 == k' then (p.1, p.2 ++ [g]) else p)
      (fun p => by dsimp only; split <;> rfl) b k]
    cases hfind : b.find? (fun p => p.1 == k) with
    | some p =>
      have hpk : p.1 = k := by simpa using List.find?_some hfind
      by_cases hkk : k = k'
      · subst hkk
        simp [hpk]
      · have hne : ¬(p.1 = k') := by
          rw [hpk]
          exact hkk
        simp [hne, hkk]
    | none =>
      by_cases hkk : k = k'
      · subst hkk
        rw [List.any_eq_true] at hmem
        obtain ⟨q, hq, hqk⟩ := hmem
        have := List.find?_eq_none.mp hfind q hq
        simp at hqk this
        exact absurd hqk this
      · simp [hkk]
  · rw [if_neg hmem]
    unfold bucketList
    rw [List.find?_append]
    cases hfind : b.find? (fun p => p.1 == k) with
    | some p =>
      have hpk : p.1 = k := by simpa using List.find?_some hfind
      have hkk : ¬k = k' := by
        intro hk
        apply hmem
        rw [List.any_eq_true]
        exact ⟨p, List.mem_of_find?_eq_some hfind, by simp [hpk, hk]⟩
      simp [hkk]
    | none =>
      by_cases hkk : k = k'
      · subst hkk
        simp [List.find?]
      · have hne : (k' == k) = false := by
          simp only [beq_eq_false_iff_ne, ne_eq]
          exact fun h => hkk h.symm
        simp [List.find?, hne, hkk]

theorem keys_addToBuckets (b : List (String × List DF)) (k' : String) (g : DF) :
    (addToBuckets b k' g).map Prod.fst =
      if b.any (fun p => p.1 == k') = true then b.map Prod.fst
      else b.map Prod.fst ++ [k'] := by
  unfold addToBuckets
  by_cases hmem : b.any (fun p => p.1 == k') = true
  · rw [if_pos hmem, if_pos hmem, List.map_map]
    apply List.map_congr_left
    intro p _
    dsimp only [Function.comp]
    split <;> rfl
  · rw [if_neg hmem, if_neg hmem, List.map_append]
    rfl

theorem bucketList_foldl (s : List (String × DF)) (b : List (String × List DF))
    (k : String) :
    bucketList (s.foldl insertBucket b) k =
      bucketList b k ++ ((s.filter (fun p => p.1 == k)).map Prod.snd) := by
  induction s generalizing b with
  | nil => simp
  | cons p t ih =>
    rw [List.foldl_cons, ih]
    unfold insertBucket
    rw [bucketList_addToBuckets, List.filter_cons]
    by_cases hpk : (p.1 == k) = true
    · have hk : k = p.1 := (beq_iff_eq.mp hpk).symm
      rw [if_pos hpk, if_pos hk]
      simp
    · have hk : ¬(k = p.1) := fun hk => hpk (by simp [hk])
      rw [if_neg hpk, if_neg hk]
      simp

theorem keys_foldl_mem (s : List (String × DF)) (b : List (String × List DF))
    (k : String) :
    k ∈ (s.foldl insertBucket b).map Prod.fst ↔
      k ∈ b.map Prod.fst ∨ k ∈ s.map Prod.fst := by
  induction s generalizing b with
  | nil => simp
  | cons p t ih =>
    rw [List.foldl_cons, ih]
    unfold insertBucket
    rw [keys_addToBuckets]
    by_cases hmem : b.any (fun q => q.1 == p.1) = true
    · rw [if_pos hmem]
      have hp1 : p.1 ∈ b.map Prod.fst := by
        rw [List.any_eq_true] at hmem
        obtain ⟨q, hq, hq1⟩ := hmem
        exact List.mem_map.mpr ⟨q, hq, by simpa using hq1⟩
      simp only [List.map_cons, List.mem_cons]
      constructor
      · rintro (h | h)
        exacts [Or.inl h, Or.inr (Or.inr h)]
      · rintro (h | h | h)
        exacts [Or.inl h, Or.inl (by rw [h]; exact hp1), Or.inr h]
    · rw [if_neg hmem]
      simp only [List.mem_append, List.mem_singleton, List.map_cons, List.mem_cons]
      tauto

theorem keys_foldl_nodup (s : List (String × DF)) (b : List (String × List DF))
    (h : (b.map Prod.fst).Nodup) :
    ((s.foldl insertBucket b).map Prod.fst).Nodup := by
  induction s generalizing b with
  | nil => exact h
  | cons p t ih =>
    rw [List.foldl_cons]
    apply ih
    unfold insertBucket
    rw [keys_addToBuckets]
    by_cases hmem : b.any (fun q => q.1 == p.1) = true
    · rw [if_pos hmem]
      exact h
    · rw [if_neg hmem]
      have hnot : p.1 ∉ b.map Prod.fst := by
        intro hp
        apply hmem
        rw [List.any_eq_true]
        obtain ⟨q, hq, hq1⟩ := List.mem_map.mp hp
        exact ⟨q, hq, by simp [hq1]⟩
      simp [List.nodup_append, h, hnot]

theorem sepLoop_ok_intro (has : Bool) (name code : Option String)
    (ref manual : List (String × String)) (dfs : List DF)
    (b : List (String × List DF))
    (hall : ∀ df ∈ dfs, ∃ po, sepStep has name code ref manual df = .ok po) :
    sepLoop has name code ref manual dfs b =
      .ok ((dfs.flatMap (stepPairs has name code ref manual)).foldl insertBucket b,
        dfs.map (stepOut has name code ref manual)) := by
  induction dfs generalizing b with
  | nil => simp [sepLoop]
  | cons df rest ih =>
    obtain ⟨⟨pairs, out⟩, hstep⟩ := hall df (List.mem_cons_self df rest)
    have hp : stepPairs has name code ref manual df = pairs := by
      unfold stepPairs
      rw [hstep]
    have ho : stepOut has name code ref manual df = out := by
      unfold stepOut
      rw [hstep]
    simp only [sepLoop, hstep]
    rw [ih (pairs.foldl insertBucket b)
      (fun d hd => hall d (List.mem_cons_of_mem df hd))]
    simp [hp, ho, List.foldl_append]

theorem sepLoop_ok_elim (has : Bool) (name code : Option String)
    (ref manual : List (String × String)) (dfs : List DF)
    (b : List (String × List DF)) (res)
    (h : sepLoop has name code ref manual dfs b = .ok res) :
    (∀ df ∈ dfs, ∃ po, sepStep has name code ref manual df = .ok po) ∧
      res = ((dfs.flatMap (stepPairs has name code ref manual)).foldl insertBucket b,
        dfs.map (stepOut has name code ref manual)) := by
  induction dfs generalizing b res with
  | nil =>
    simp only [sepLoop] at h
    cases h
    simp
  | cons df rest ih =>
    simp only [sepLoop] at h
    cases hstep : sepStep has name code ref manual df with
    | error e =>
      rw [hstep] at h
      cases h
    | ok po =>
      obtain ⟨pairs, out⟩ := po
      rw [hstep] at h
      dsimp only at h
      cases hrest : sepLoop has name code ref manual rest (pairs.foldl insertBucket b) with
      | error e =>
        rw [hrest] at h
        cases h
      | ok bo =>
        obtain ⟨bf, outs⟩ := bo
        rw [hrest] at h
        cases h
        obtain ⟨hall, hres⟩ := ih (pairs.foldl insertBucket b) (bf, outs) hrest
        have hp : stepPairs has name code ref manual df = pairs := by
          unfold stepPairs
          rw [hstep]
        have ho : stepOut has name code ref manual df = out := by
          unfold stepOut
          rw [hstep]
        rw [Prod.mk.injEq] at hres
        refine ⟨?_, ?_⟩
        · intro d hd
          rcases List.mem_cons.mp hd with rfl | hd2
          · exact ⟨(pairs, out), hstep⟩
          · exact hall d hd2
        · rw [Prod.mk.injEq]
          constructor
          · rw [hres.1, List.flatMap_cons, List.foldl_append, hp]
          · rw [List.map_cons, ho, hres.2]

theorem separate_data_ok_intro (has : Bool) (name code : Option String)
    (ref manual : List (String × String)) (dfs : List DF)
    (hall : ∀ df ∈ dfs, ∃ po, sepStep has name code ref manual df = .ok po) :
    separate_data dfs has name code ref manual =
      .ok ((((dfs.flatMap (stepPairs has name code ref manual)).foldl
          insertBucket []).map (fun p => (p.1, concatDF p.2))),
        dfs.map (stepOut has name code ref manual)) := by
  unfold separate_data
  rw [sepLoop_ok_intro has name code ref manual dfs [] hall]

theorem separate_data_ok_elim (has : Bool) (name code : Option String)
    (ref manual : List (String × String)) (dfs : List DF)
    (bout : List (String × DF)) (outs : List DF)
    (h : separate_data dfs has name code ref manual = .ok (bout, outs)) :
    (∀ df ∈ dfs, ∃ po, sepStep has name code ref manual df = .ok po) ∧
      bout = ((dfs.flatMap (stepPairs has name code ref manual)).foldl
        insertBucket []).map (fun p => (p.1, concatDF p.2)) ∧
      outs = dfs.map (stepOut has name code ref manual) := by
  unfold separate_data at h
  cases hloop : sepLoop has name code ref manual dfs [] with
  | error e =>
    rw [hloop] at h
    cases h
  | ok res =>
    obtain ⟨b, o⟩ := res
    rw [hloop] at h
    injection h with h2
    rw [Prod.mk.injEq] at h2
    obtain ⟨hb, ho⟩ := h2
    obtain ⟨hall, hres⟩ := sepLoop_ok_elim has name code ref manual dfs [] (b, o) hloop
    rw [Prod.mk.injEq] at hres
    refine ⟨hall, ?_, ?_⟩
    · rw [← hb, hres.1]
    · rw [← ho, hres.2]

theorem assignWith_cols (df : DF) (cname : String) (f : List String → String) :
    (assignWith df cname f).cols = addColName df.cols cname := by
  unfold assignWith addColName
  cases List.findIdx? (fun x => x == cname) df.cols <;> rfl

theorem mem_addColName_of_mem {cols : List String} {s : String} (cname : String)
    (h : s ∈ cols) : s ∈ addColName cols cname := by
  unfold addColName
  cases List.findIdx? (fun x => x == cname) cols with
  | some i => exact h
  | none => exact List.mem_append_left _ h

theorem not_mem_addColName {cols : List String} {s : String} {cname : String}
    (h : s ∉ cols) (hne : s ≠ cname) : s ∉ addColName cols cname := by
  unfold addColName
  cases List.findIdx? (fun x => x == cname) cols with
  | some i => exact h
  | none =>
    intro hmem
    rcases List.mem_append.mp hmem with h1 | h1
    · exact h h1
    · exact hne (List.mem_singleton.mp h1)

theorem findIdx?_eq_none_of_not_mem {cs : List String} {s : String} (h : s ∉ cs) :
    List.findIdx? (fun c => c == s) cs = none :=
  List.findIdx?_eq_none_iff.mpr (fun x hx => by
    simp only [beq_eq_false_iff_ne, ne_eq]
    rintro rfl
    exact h hx)

theorem contains_of_findIdx?_some {cs : List String} {s : String} {i : Nat}
    (h : List.findIdx? (fun c => c == s) cs = some i) : cs.contains s = true := by
  obtain ⟨hlt, hp, _⟩ := List.findIdx?_eq_some_iff_getElem.mp h
  have : s ∈ cs := by
    have := beq_iff_eq.mp hp
    rw [← this]
    exact List.getElem_mem hlt
  simpa using this

theorem expand_cols_eq {df e : DF} (he : expand_instansi_rows df = Except.ok e)
    (hc : e.cols.contains "INSTANSI" = true) : e.cols = df.cols := by
  unfold expand_instansi_rows at he
  cases hix : List.findIdx? (fun c => c == "INSTANSI") df.cols with
  | some i =>
    rw [hix] at he
    injection he with he2
    rw [← he2] at hc ⊢
    unfold mkDF at hc ⊢
    by_cases hemp : (df.rows.flatMap (expandRow i)).isEmpty
    · rw [if_pos hemp] at hc
      cases hc
    · rw [if_neg hemp]
  | none =>
    rw [hix] at he
    by_cases hemp : df.rows.isEmpty
    · rw [if_pos hemp] at he
      injection he with he2
      rw [← he2] at hc
      cases hc
    · rw [if_neg hemp] at he
      cases he

theorem sepStepInstansi_inv (ref manual : List (String × String)) (df : DF)
    (pairs : List (String × DF)) (out : DF)
    (h : sepStepInstansi ref manual df = .ok (pairs, out)) :
    out = df ∧
    (pairs = [] ∨
      ∃ e i j i2, expand_instansi_rows df = .ok e ∧
        List.findIdx? (fun c => c == "INSTANSI") e.cols = some i ∧
        List.findIdx? (fun c => c == "JENIS TES")
          (assignWith ⟨e.cols, cleanInstansi i e.rows⟩ "REF_INSTANSI"
            (fun r => optCell (get_ref_instansi_for_value (cell r i) ref
              manual))).cols = some j ∧
        List.findIdx? (fun c => c == "INSTANSI")
          (assignWith ⟨e.cols, cleanInstansi i e.rows⟩ "REF_INSTANSI"
            (fun r => optCell (get_ref_instansi_for_value (cell r i) ref
              manual))).cols = some i2 ∧
        pairs = (groupBy2 j i2
          (assignWith ⟨e.cols, cleanInstansi i e.rows⟩ "REF_INSTANSI"
            (fun r => optCell (get_ref_instansi_for_value (cell r i) ref
              manual)))).map (fun kg => (kg.1.2 ++ "_" ++ kg.1.1, kg.2))) := by
  unfold sepStepInstansi at h
  cases hexp : expand_instansi_rows df with
  | error e => rw [hexp] at h; cases h
  | ok e =>
    rw [hexp] at h
    dsimp only at h
    cases hi : List.findIdx? (fun c => c == "INSTANSI") e.cols with
    | none => rw [hi] at h; cases h
    | some i =>
      rw [hi] at h
      dsimp only at h
      by_cases hclean : (cleanInstansi i e.rows).isEmpty
      · rw [if_pos hclean] at h
        injection h with h2
        rw [Prod.mk.injEq] at h2
        exact ⟨h2.2.symm, Or.inl h2.1.symm⟩
      · rw [if_neg hclean] at h
        cases hj : List.findIdx? (fun c => c == "JENIS TES")
            (assignWith ⟨e.cols, cleanInstansi i e.rows⟩ "REF_INSTANSI"
              (fun r => optCell (get_ref_instansi_for_value (cell r i) ref
                manual))).cols with
        | none =>
          rw [hj] at h
          dsimp only at h
          injection h with h2
          rw [Prod.mk.injEq] at h2
          exact ⟨h2.2.symm, Or.inl h2.1.symm⟩
        | some j =>
          rw [hj] at h
          cases hi2 : List.findIdx? (fun c => c == "INSTANSI")
              (assignWith ⟨e.cols, cleanInstansi i e.rows⟩ "REF_INSTANSI"
                (fun r => optCell (get_ref_instansi_for_value (cell r i) ref
                  manual))).cols with
          | none =>
            rw [hi2] at h
            dsimp only at h
            injection h with h2
            rw [Prod.mk.injEq] at h2
            exact ⟨h2.2.symm, Or.inl h2.1.symm⟩
          | some i2 =>
            rw [hi2] at h
            dsimp only at h
            injection h with h2
            rw [Prod.mk.injEq] at h2
            exact ⟨h2.2.symm, Or.inr ⟨e, i, j, i2, rfl, hi, hj, hi2, h2.1.symm⟩⟩

theorem sepStepJenis_inv (name code : Option String) (df : DF)
    (pairs : List (String × DF)) (out : DF)
    (h : sepStepJenis name code df = .ok (pairs, out)) :
    out = assignConst (assignConst df "INSTANSI" (pyOr name "NO_INSTANSI"))
      "REF_INSTANSI" (optCell code) ∧
    ∃ j, List.findIdx? (fun c => c == "JENIS TES") out.cols = some j ∧
      pairs = (groupBy1 j out).map
        (fun kg => (pyOr name "NO_INSTANSI" ++ "_" ++ kg.1, kg.2)) := by
  unfold sepStepJenis at h
  dsimp only at h
  cases hj : List.findIdx? (fun c => c == "JENIS TES")
      (assignConst (assignConst df "INSTANSI" (pyOr name "NO_INSTANSI"))
        "REF_INSTANSI" (optCell code)).cols with
  | none => rw [hj] at h; cases h
  | some j =>
    rw [hj] at h
    dsimp only at h
    injection h with h2
    rw [Prod.mk.injEq] at h2
    obtain ⟨hpairs, hout⟩ := h2
    subst hout
    exact ⟨rfl, j, hj, hpairs.symm⟩

theorem sepStepInstansi_ok (ref manual : List (String × String)) (df e : DF)
    (he : expand_instansi_rows df = Except.ok e)
    (hc : e.cols.contains "INSTANSI" = true) :
    ∃ po, sepStepInstansi ref manual df = .ok po := by
  obtain ⟨i, hi⟩ := contains_findIdx? e.cols "INSTANSI" hc
  unfold sepStepInstansi
  rw [he]
  dsimp only
  rw [hi]
  dsimp only
  by_cases hclean : (cleanInstansi i e.rows).isEmpty
  · rw [if_pos hclean]
    exact ⟨_, rfl⟩
  · rw [if_neg hclean]
    split
    · exact ⟨_, rfl⟩
    · exact ⟨_, rfl⟩

theorem sepStepJenis_ok (name code : Option String) (df : DF)
    (h : "JENIS TES" ∈ df.cols) :
    ∃ po, sepStepJenis name code df = .ok po := by
  have hmem : "JENIS TES" ∈ (assignConst (assignConst df "INSTANSI"
      (pyOr name "NO_INSTANSI")) "REF_INSTANSI" (optCell code)).cols := by
    unfold assignConst
    rw [assignWith_cols, assignWith_cols]
    exact mem_addColName_of_mem _ (mem_addColName_of_mem _ h)
  obtain ⟨j, hj⟩ := contains_findIdx? _ "JENIS TES" (by simpa using hmem)
  unfold sepStepJenis
  dsimp only
  rw [hj]
  exact ⟨_, rfl⟩

theorem groupBy2_cols (j i : Nat) (d : DF) :
    ∀ kg ∈ groupBy2 j i d, kg.2.cols = d.cols := by
  intro kg hkg
  unfold groupBy2 at hkg
  simp only [List.mem_map] at hkg
  obtain ⟨k, _, rfl⟩ := hkg
  rfl

theorem groupBy1_cols (j : Nat) (d : DF) :
    ∀ kg ∈ groupBy1 j d, kg.2.cols = d.cols := by
  intro kg hkg
  unfold groupBy1 at hkg
  simp only [List.mem_map] at hkg
  obtain ⟨k, _, rfl⟩ := hkg
  rfl

theorem stepPairs_true_cols (name code : Option String)
    (ref manual : List (String × String)) (df : DF) (p : String × DF)
    (hp : p ∈ stepPairs true name code ref manual df) :
    p.2.cols = addColName df.cols "REF_INSTANSI" := by
  unfold stepPairs at hp
  cases hstep : sepStep true name code ref manual df with
  | error e =>
    rw [hstep] at hp
    simp at hp
  | ok po =>
    obtain ⟨pairs, out⟩ := po
    rw [hstep] at hp
    dsimp only at hp
    have hstep' : sepStepInstansi ref manual df = .ok (pairs, out) := by
      simpa [sepStep] using hstep
    obtain ⟨_, hrest⟩ := sepStepInstansi_inv ref manual df pairs out hstep'
    rcases hrest with rfl | ⟨e, i, j, i2, hexp, hi, hj, hi2, rfl⟩
    · simp at hp
    · rw [List.mem_map] at hp
      obtain ⟨kg, hkg, rfl⟩ := hp
      dsimp only
      rw [groupBy2_cols j i2 _ kg hkg, assignWith_cols]
      dsimp only
      rw [expand_cols_eq hexp (contains_of_findIdx?_some hi)]

theorem stepPairs_false_cols (name code : Option String)
    (ref manual : List (String × String)) (df : DF) (p : String × DF)
    (hp : p ∈ stepPairs false name code ref manual df) :
    p.2.cols = addColName (addColName df.cols "INSTANSI") "REF_INSTANSI" := by
  unfold stepPairs at hp
  cases hstep : sepStep false name code ref manual df with
  | error e =>
    rw [hstep] at hp
    simp at hp
  | ok po =>
    obtain ⟨pairs, out⟩ := po
    rw [hstep] at hp
    dsimp only at hp
    have hstep' : sepStepJenis name code df = .ok (pairs, out) := by
      simpa [sepStep] using hstep
    obtain ⟨hout, j, hj, hpairs⟩ := sepStepJenis_inv name code df pairs out hstep'
    subst hpairs
    rw [List.mem_map] at hp
    obtain ⟨kg, hkg, rfl⟩ := hp
    dsimp only
    rw [groupBy1_cols j _ kg hkg, hout]
    unfold assignConst
    rw [assignWith_cols, assignWith_cols]

theorem stepPairs_cols (has : Bool) (name code : Option String)
    (ref manual : List (String × String)) (df : DF) (p : String × DF)
    (hp : p ∈ stepPairs has name code ref manual df) :
    p.2.cols = sepOutCols has df.cols := by
  cases has
  · rw [sepOutCols, if_neg (by simp)]
    exact stepPairs_false_cols name code ref manual df p hp
  · rw [sepOutCols, if_pos rfl]
    exact stepPairs_true_cols name code ref manual df p hp

theorem flatMap_eq_flatMap_filter {α β : Type _} (p : α → Bool) (f : α → List β)
    (l : List α) (h : ∀ a ∈ l, p a = false → f a = []) :
    l.flatMap f = (l.filter p).flatMap f := by
  induction l with
  | nil => rfl
  | cons a t ih =>
    rw [List.flatMap_cons, List.filter_cons]
    cases hpa : p a
    · rw [h a (List.mem_cons_self a t) hpa]
      simpa using ih (fun x hx => h x (List.mem_cons_of_mem a hx))
    · rw [ih (fun x hx => h x (List.mem_cons_of_mem a hx))]
      simp

/-! ## Claims about the grouping engine -/

theorem stepOut_true_id (name code : Option String)
    (ref manual : List (String × String)) (df : DF)
    (hok : ∃ po, sepStep true name code ref manual df = .ok po) :
    stepOut true name code ref manual df = df := by
  obtain ⟨⟨pairs, out⟩, hstep⟩ := hok
  have hstep' : sepStepInstansi ref manual df = .ok (pairs, out) := by
    simpa [sepStep] using hstep
  unfold stepOut
  rw [hstep]
  exact (sepStepInstansi_inv ref manual df pairs out hstep').1

theorem stepOut_false_assign (name code : Option String)
    (ref manual : List (String × String)) (df : DF)
    (hok : ∃ po, sepStep false name code ref manual df = .ok po) :
    stepOut false name code ref manual df =
      assignConst (assignConst df "INSTANSI" (pyOr name "NO_INSTANSI"))
        "REF_INSTANSI" (optCell code) := by
  obtain ⟨⟨pairs, out⟩, hstep⟩ := hok
  have hstep' : sepStepJenis name code df = .ok (pairs, out) := by
    simpa [sepStep] using hstep
  unfold stepOut
  rw [hstep]
  exact (sepStepJenis_inv name code df pairs out hstep').1

/-- C10 (confirmed): in category-only mode the grouping engine mutates the
caller's dataframes, adding the INSTANSI and REF_INSTANSI columns in place
before partitioning; in affiliation mode the input dataframes come back
unchanged (derived columns live only on expanded copies). -/
theorem c10_frame_effect (name code : Option String)
    (ref manual : List (String × String)) (dfs : List DF)
    (b₁ b₂ : List (String × DF)) (o₁ o₂ : List DF) :
    (separate_data dfs true name code ref manual = .ok (b₁, o₁) → o₁ = dfs) ∧
    (separate_data dfs false name code ref manual = .ok (b₂, o₂) →
      o₂ = dfs.map (fun df => assignConst (assignConst df "INSTANSI"
        (pyOr name "NO_INSTANSI")) "REF_INSTANSI" (optCell code))) := by
  constructor
  · intro h
    obtain ⟨hall, _, houts⟩ := separate_data_ok_elim true name code ref manual
      dfs b₁ o₁ h
    rw [houts]
    calc dfs.map (stepOut true name code ref manual)
        = dfs.map id :=
          List.map_congr_left (fun df hdf =>
            stepOut_true_id name code ref manual df (hall df hdf))
      _ = dfs := List.map_id dfs
  · intro h
    obtain ⟨hall, _, houts⟩ := separate_data_ok_elim false name code ref manual
      dfs b₂ o₂ h
    rw [houts]
    exact List.map_congr_left (fun df hdf =>
      stepOut_false_assign name code ref manual df (hall df hdf))

/-- C9 (corrected, affiliation-mode side): with every source carrying a
usable INSTANSI column, a source whose record set lacks the category column
JENIS TES at grouping time is skipped and the remaining sources still
produce their buckets; the inputs come back unchanged.  (The claim's
category-only half fails: see the counterexample.) -/
theorem c9_partial_failure_amended (name code : Option String)
    (ref manual : List (String × String)) (dfs : List DF)
    (h : ∀ df ∈ dfs, ∃ e, expand_instansi_rows df = Except.ok e ∧
      e.cols.contains "INSTANSI" = true) :
    ∃ b, separate_data dfs true name code ref manual = .ok (b, dfs) ∧
      separate_data (dfs.filter (fun df => df.cols.contains "JENIS TES")) true
        name code ref manual =
        .ok (b, dfs.filter (fun df => df.cols.contains "JENIS TES")) := by
  have hok : ∀ df ∈ dfs, ∃ po, sepStep true name code ref manual df = .ok po := by
    intro df hdf
    obtain ⟨e, he, hc⟩ := h df hdf
    obtain ⟨po, hpo⟩ := sepStepInstansi_ok ref manual df e he hc
    exact ⟨po, by simpa [sepStep] using hpo⟩
  have hok2 : ∀ df ∈ dfs.filter (fun df => df.cols.contains "JENIS TES"),
      ∃ po, sepStep true name code ref manual df = .ok po :=
    fun df hdf => hok df (List.mem_of_mem_filter hdf)
  have houtmap : ∀ l : List DF, (∀ df ∈ l, ∃ po,
      sepStep true name code ref manual df = .ok po) →
      l.map (stepOut true name code ref manual) = l := by
    intro l hl
    calc l.map (stepOut true name code ref manual)
        = l.map id := List.map_congr_left (fun df hdf =>
          stepOut_true_id name code ref manual df (hl df hdf))
      _ = l := List.map_id l
  have hpairs_eq : dfs.flatMap (stepPairs true name code ref manual) =
      (dfs.filter (fun df => df.cols.contains "JENIS TES")).flatMap
        (stepPairs true name code ref manual) := by
    apply flatMap_eq_flatMap_filter
    intro df hdf hfalse
    obtain ⟨e, he, hc⟩ := h df hdf
    have hnjt : "JENIS TES" ∉ df.cols := by simpa using hfalse
    obtain ⟨po, hpo⟩ := sepStepInstansi_ok ref manual df e he hc
    obtain ⟨pairs, out⟩ := po
    have hstep : sepStep true name code ref manual df = .ok (pairs, out) := by
      simpa [sepStep] using hpo
    obtain ⟨_, hrest⟩ := sepStepInstansi_inv ref manual df pairs out hpo
    rcases hrest with rfl | ⟨e', i, j, i2, hexp', hi', hj', _, _⟩
    · unfold stepPairs
      rw [hstep]
    · exfalso
      have hee : e' = e := by
        rw [he] at hexp'
        injection hexp' with h2
        exact h2.symm
      subst hee
      have hcols : e'.cols = df.cols := expand_cols_eq he hc
      have hmem : "JENIS TES" ∈ (assignWith ⟨e'.cols, cleanInstansi i e'.rows⟩
          "REF_INSTANSI" (fun r => optCell (get_ref_instansi_for_value
            (cell r i) ref manual))).cols := by
        have := contains_of_findIdx?_some hj'
        simpa using this
      rw [assignWith_cols] at hmem
      dsimp only at hmem
      rw [hcols] at hmem
      exact not_mem_addColName hnjt (by decide) hmem
  refine ⟨((dfs.flatMap (stepPairs true name code ref manual)).foldl
      insertBucket []).map (fun p => (p.1, concatDF p.2)), ?_, ?_⟩
  · rw [separate_data_ok_intro true name code ref manual dfs hok,
      houtmap dfs hok]
  · rw [separate_data_ok_intro true name code ref manual _ hok2,
      houtmap _ hok2, ← hpairs_eq]

theorem flatMap_congr_mem {α β : Type _} {l : List α} {f g : α → List β}
    (h : ∀ a ∈ l, f a = g a) : l.flatMap f = l.flatMap g := by
  induction l with
  | nil => rfl
  | cons a t ih =>
    rw [List.flatMap_cons, List.flatMap_cons, h a (List.mem_cons_self a t),
      ih (fun x hx => h x (List.mem_cons_of_mem a hx))]

theorem records_concatDF (l : List DF) (c' : List String)
    (h : ∀ d ∈ l, d.cols = c') : records (concatDF l) = l.flatMap records := by
  cases l with
  | nil => rfl
  | cons d t =>
    unfold concatDF records
    dsimp only
    rw [List.map_flatMap]
    apply flatMap_congr_mem
    intro x hx
    have : x.cols = d.cols := by
      rw [h x hx, h d (List.mem_cons_self d t)]
    rw [this]

/-- C5 (confirmed, for record sets sharing one schema, as every run of the
app produces): grouping a permutation of the same record sets — in
particular files [A, B] against [B, A] — yields the same bucket keys (as a
set; the association order may differ) and, for every key, the same multiset
of records. -/
theorem c5_grouping_commutes (has : Bool) (name code : Option String)
    (ref manual : List (String × String)) (c : List String)
    (dfs₁ dfs₂ : List DF)
    (hcols : ∀ df ∈ dfs₁, df.cols = c)
    (hperm : dfs₁.Perm dfs₂)
    (b₁ b₂ : List (String × DF)) (o₁ o₂ : List DF)
    (h₁ : separate_data dfs₁ has name code ref manual = .ok (b₁, o₁))
    (h₂ : separate_data dfs₂ has name code ref manual = .ok (b₂, o₂)) :
    (b₁.map Prod.fst).Perm (b₂.map Prod.fst) ∧
    ∀ k, (bucketRecords b₁ k).Perm (bucketRecords b₂ k) := by
  obtain ⟨hall₁, hb₁, _⟩ := separate_data_ok_elim has name code ref manual
    dfs₁ b₁ o₁ h₁
  obtain ⟨hall₂, hb₂, _⟩ := separate_data_ok_elim has name code ref manual
    dfs₂ b₂ o₂ h₂
  have hcols₂ : ∀ df ∈ dfs₂, df.cols = c :=
    fun df hdf => hcols df (hperm.mem_iff.mpr hdf)
  have hap : (dfs₁.flatMap (stepPairs has name code ref manual)).Perm
      (dfs₂.flatMap (stepPairs has name code ref manual)) :=
    perm_flatMap _ hperm
  have hkeys : ∀ (dfs : List DF) (b : List (String × DF)),
      b = ((dfs.flatMap (stepPairs has name code ref manual)).foldl
        insertBucket []).map (fun p => (p.1, concatDF p.2)) →
      b.map Prod.fst = ((dfs.flatMap (stepPairs has name code ref manual)).foldl
        insertBucket []).map Prod.fst := by
    intro dfs b hb
    rw [hb, List.map_map]
    exact List.map_congr_left (fun p _ => rfl)
  have hrec : ∀ (dfs : List DF) (b : List (String × DF)),
      (∀ df ∈ dfs, df.cols = c) →
      b = ((dfs.flatMap (stepPairs has name code ref manual)).foldl
        insertBucket []).map (fun p => (p.1, concatDF p.2)) →
      ∀ k, bucketRecords b k =
        (((dfs.flatMap (stepPairs has name code ref manual)).filter
          (fun p => p.1 == k)).map Prod.snd).flatMap records := by
    intro dfs b hc hb k
    rw [hb]
    unfold bucketRecords
    rw [find?_map_of_fst_pres (fun p => (p.1, concatDF p.2)) (fun p => rfl)]
    have hbl : bucketList ((dfs.flatMap (stepPairs has name code ref
        manual)).foldl insertBucket []) k =
        ((dfs.flatMap (stepPairs has name code ref manual)).filter
          (fun p => p.1 == k)).map Prod.snd := by
      have := bucketList_foldl (dfs.flatMap (stepPairs has name code ref
        manual)) [] k
      simpa [bucketList] using this
    cases hfind : ((dfs.flatMap (stepPairs has name code ref manual)).foldl
        insertBucket []).find? (fun p => p.1 == k) with
    | none =>
      have hnil : bucketList ((dfs.flatMap (stepPairs has name code ref
          manual)).foldl insertBucket []) k = [] := by
        unfold bucketList
        rw [hfind]
      rw [hnil] at hbl
      rw [← hbl]
      rfl
    | some p =>
      have hp2 : bucketList ((dfs.flatMap (stepPairs has name code ref
          manual)).foldl insertBucket []) k = p.2 := by
        unfold bucketList
        rw [hfind]
      rw [hp2] at hbl
      have hcc : ∀ d ∈ p.2, d.cols = sepOutCols has c := by
        intro d hd
        rw [hbl] at hd
        obtain ⟨q, hq, rfl⟩ := List.mem_map.mp hd
        have hq2 := List.mem_filter.mp hq
        obtain ⟨df, hdf, hqp⟩ := List.mem_flatMap.mp hq2.1
        rw [stepPairs_cols has name code ref manual df q hqp, hc df hdf]
      change records (concatDF p.2) = _
      rw [records_concatDF p.2 (sepOutCols has c) hcc, hbl]
  constructor
  · rw [hkeys dfs₁ b₁ hb₁, hkeys dfs₂ b₂ hb₂]
    have hn₁ := keys_foldl_nodup (dfs₁.flatMap (stepPairs has name code ref
      manual)) [] (by simp)
    have hn₂ := keys_foldl_nodup (dfs₂.flatMap (stepPairs has name code ref
      manual)) [] (by simp)
    rw [List.perm_ext_iff_of_nodup hn₁ hn₂]
    intro k
    rw [keys_foldl_mem, keys_foldl_mem]
    simp only [List.map_nil, List.not_mem_nil, false_or]
    exact (hap.map Prod.fst).mem_iff
  · intro k
    rw [hrec dfs₁ b₁ hcols hb₁ k, hrec dfs₂ b₂ hcols₂ hb₂ k]
    exact perm_flatMap records ((hap.filter _).map Prod.snd)

/-- Witness for C5 at the spec's scenario 5: two files both containing
category CPNS with affiliation KEMKES, grouped as [A, B] and as [B, A],
share the bucket keys and per-key record multisets, and the KEMKES_CPNS
bucket holds the records of both files (1 + 1). -/
theorem c5_grouping_commutes_witness :
    (([("KEMKES_CPNS", DF.mk ["JENIS TES", "INSTANSI", "REF_INSTANSI"]
          [["CPNS", "KEMKES", "001"], ["CPNS", "KEMKES", "001"]]),
        ("POLRI_PPPK", DF.mk ["JENIS TES", "INSTANSI", "REF_INSTANSI"]
          [["PPPK", "POLRI", "None"]])] : List (String × DF)).map Prod.fst).Perm
      (([("KEMKES_CPNS", DF.mk ["JENIS TES", "INSTANSI", "REF_INSTANSI"]
          [["CPNS", "KEMKES", "001"], ["CPNS", "KEMKES", "001"]]),
        ("POLRI_PPPK", DF.mk ["JENIS TES", "INSTANSI", "REF_INSTANSI"]
          [["PPPK", "POLRI", "None"]])] : List (String × DF)).map Prod.fst) ∧
    (∀ k, (bucketRecords
        [("KEMKES_CPNS", DF.mk ["JENIS TES", "INSTANSI", "REF_INSTANSI"]
          [["CPNS", "KEMKES", "001"], ["CPNS", "KEMKES", "001"]]),
         ("POLRI_PPPK", DF.mk ["JENIS TES", "INSTANSI", "REF_INSTANSI"]
          [["PPPK", "POLRI", "None"]])] k).Perm
      (bucketRecords
        [("KEMKES_CPNS", DF.mk ["JENIS TES", "INSTANSI", "REF_INSTANSI"]
          [["CPNS", "KEMKES", "001"], ["CPNS", "KEMKES", "001"]]),
         ("POLRI_PPPK", DF.mk ["JENIS TES", "INSTANSI", "REF_INSTANSI"]
          [["PPPK", "POLRI", "None"]])] k)) ∧
    (bucketRecords
        [("KEMKES_CPNS", DF.mk ["JENIS TES", "INSTANSI", "REF_INSTANSI"]
          [["CPNS", "KEMKES", "001"], ["CPNS", "KEMKES", "001"]]),
         ("POLRI_PPPK", DF.mk ["JENIS TES", "INSTANSI", "REF_INSTANSI"]
          [["PPPK", "POLRI", "None"]])] "KEMKES_CPNS").length = 1 + 1 := by
  have hmain := c5_grouping_commutes true none none [("KEMKES", "001")] []
    ["JENIS TES", "INSTANSI"]
    [DF.mk ["JENIS TES", "INSTANSI"] [["CPNS", "KEMKES"]],
     DF.mk ["JENIS TES", "INSTANSI"] [["CPNS", "KEMKES"], ["PPPK", "POLRI"]]]
    [DF.mk ["JENIS TES", "INSTANSI"] [["CPNS", "KEMKES"], ["PPPK", "POLRI"]],
     DF.mk ["JENIS TES", "INSTANSI"] [["CPNS", "KEMKES"]]]
    (by decide)
    (List.Perm.swap (DF.mk ["JENIS TES", "INSTANSI"]
        [["CPNS", "KEMKES"], ["PPPK", "POLRI"]])
      (DF.mk ["JENIS TES", "INSTANSI"] [["CPNS", "KEMKES"]]) [])
    [("KEMKES_CPNS", DF.mk ["JENIS TES", "INSTANSI", "REF_INSTANSI"]
        [["CPNS", "KEMKES", "001"], ["CPNS", "KEMKES", "001"]]),
     ("POLRI_PPPK", DF.mk ["JENIS TES", "INSTANSI", "REF_INSTANSI"]
        [["PPPK", "POLRI", "None"]])]
    [("KEMKES_CPNS", DF.mk ["JENIS TES", "INSTANSI", "REF_INSTANSI"]
        [["CPNS", "KEMKES", "001"], ["CPNS", "KEMKES", "001"]]),
     ("POLRI_PPPK", DF.mk ["JENIS TES", "INSTANSI", "REF_INSTANSI"]
        [["PPPK", "POLRI", "None"]])]
    [DF.mk ["JENIS TES", "INSTANSI"] [["CPNS", "KEMKES"]],
     DF.mk ["JENIS TES", "INSTANSI"] [["CPNS", "KEMKES"], ["PPPK", "POLRI"]]]
    [DF.mk ["JENIS TES", "INSTANSI"] [["CPNS", "KEMKES"], ["PPPK", "POLRI"]],
     DF.mk ["JENIS TES", "INSTANSI"] [["CPNS", "KEMKES"]]]
    (by rfl) (by rfl)
  exact ⟨hmain.1, hmain.2, by rfl⟩

/-- Witness for C9's amended theorem: a source missing JENIS TES is skipped
while the valid source still yields its bucket, inputs unchanged. -/
theorem c9_partial_failure_witness :
    ∃ b, separate_data
        [DF.mk ["INSTANSI"] [["A"]],
         DF.mk ["JENIS TES", "INSTANSI"] [["CPNS", "KEMKES"]]] true none none
        [] [] =
      .ok (b, [DF.mk ["INSTANSI"] [["A"]],
        DF.mk ["JENIS TES", "INSTANSI"] [["CPNS", "KEMKES"]]]) ∧
      separate_data
        ([DF.mk ["INSTANSI"] [["A"]],
          DF.mk ["JENIS TES", "INSTANSI"] [["CPNS", "KEMKES"]]].filter
          (fun df => df.cols.contains "JENIS TES")) true none none [] [] =
        .ok (b, [DF.mk ["INSTANSI"] [["A"]],
          DF.mk ["JENIS TES", "INSTANSI"] [["CPNS", "KEMKES"]]].filter
          (fun df => df.cols.contains "JENIS TES")) :=
  c9_partial_failure_amended none none [] []
    [DF.mk ["INSTANSI"] [["A"]],
     DF.mk ["JENIS TES", "INSTANSI"] [["CPNS", "KEMKES"]]]
    (by
      intro df hdf
      rcases List.mem_cons.mp hdf with rfl | hdf2
      · exact ⟨DF.mk ["INSTANSI"] [["A"]], rfl, rfl⟩
      · rcases List.mem_cons.mp hdf2 with rfl | hdf3
        · exact ⟨DF.mk ["JENIS TES", "INSTANSI"] [["CPNS", "KEMKES"]], rfl, rfl⟩
        · exact absurd hdf3 (List.not_mem_nil df))

/-- Counterexample to C9 as stated: in category-only mode the `groupby` is
not guarded, so a record set missing JENIS TES aborts the whole call instead
of being skipped — the valid second source produces no bucket, although it
does on its own. -/
theorem c9_partial_failure_counterexample :
    separate_data [DF.mk ["X"] [["1"]], DF.mk ["JENIS TES"] [["CPNS"]]] false
        none none [] [] = Except.error "KeyError: JENIS TES" ∧
    separate_data [DF.mk ["JENIS TES"] [["CPNS"]]] false none none [] [] =
      Except.ok ([("NO_INSTANSI_CPNS", DF.mk ["JENIS TES", "INSTANSI",
          "REF_INSTANSI"] [["CPNS", "NO_INSTANSI", "None"]])],
        [DF.mk ["JENIS TES", "INSTANSI", "REF_INSTANSI"]
          [["CPNS", "NO_INSTANSI", "None"]]]) :=
  ⟨rfl, rfl⟩

/-- Witness for C10 on a one-file run of each mode: affiliation mode returns
the input unchanged; category-only mode returns it with the INSTANSI and
REF_INSTANSI columns added in place. -/
theorem c10_frame_effect_witness :
    (([DF.mk ["JENIS TES", "INSTANSI"] [["CPNS", "KEMKES"]]] : List DF) =
      [DF.mk ["JENIS TES", "INSTANSI"] [["CPNS", "KEMKES"]]]) ∧
    (([DF.mk ["JENIS TES", "INSTANSI", "REF_INSTANSI"]
        [["CPNS", "NO_INSTANSI", "None"]]] : List DF) =
      [DF.mk ["JENIS TES", "INSTANSI"] [["CPNS", "KEMKES"]]].map (fun df =>
        assignConst (assignConst df "INSTANSI" (pyOr none "NO_INSTANSI"))
          "REF_INSTANSI" (optCell none))) :=
  ⟨(c10_frame_effect none none [] []
      [DF.mk ["JENIS TES", "INSTANSI"] [["CPNS", "KEMKES"]]]
      [("KEMKES_CPNS", DF.mk ["JENIS TES", "INSTANSI", "REF_INSTANSI"]
        [["CPNS", "KEMKES", "None"]])]
      [("NO_INSTANSI_CPNS", DF.mk ["JENIS TES", "INSTANSI", "REF_INSTANSI"]
        [["CPNS", "NO_INSTANSI", "None"]])]
      [DF.mk ["JENIS TES", "INSTANSI"] [["CPNS", "KEMKES"]]]
      [DF.mk ["JENIS TES", "INSTANSI", "REF_INSTANSI"]
        [["CPNS", "NO_INSTANSI", "None"]]]).1 (by rfl),
   (c10_frame_effect none none [] []
      [DF.mk ["JENIS TES", "INSTANSI"] [["CPNS", "KEMKES"]]]
      [("KEMKES_CPNS", DF.mk ["JENIS TES", "INSTANSI", "REF_INSTANSI"]
        [["CPNS", "KEMKES", "None"]])]
      [("NO_INSTANSI_CPNS", DF.mk ["JENIS TES", "INSTANSI", "REF_INSTANSI"]
        [["CPNS", "NO_INSTANSI", "None"]])]
      [DF.mk ["JENIS TES", "INSTANSI"] [["CPNS", "KEMKES"]]]
      [DF.mk ["JENIS TES", "INSTANSI", "REF_INSTANSI"]
        [["CPNS", "NO_INSTANSI", "None"]]]).2 (by rfl)⟩
